import Mathlib

/-!
# PWM_GEN: variable-frequency PWM generator (ATmega2560), `PWM_GEN/PWM_GEN/main.c`

A shallow embedding of the firmware's command engine.

* C `char` values are natural numbers `0..255`; text is a list of such bytes.
* On the AVR target `int` and `unsigned int` are 16 bits wide, `uint32_t` is 32 bits wide;
  every narrowing is written as an explicit `%`.
* The global variables of `main.c` are the fields of `State`.  The bytes handed to the
  transmit data register `UDR0` are collected, in order, in the field `Sent`.
* The AVR has no memory protection: a string scan that runs past the end of an array
  reads whatever the neighbouring memory holds.  Such memory is an explicit argument of
  the functions that can reach it, and so are the array bytes that the code reads
  without having written them (`TempString[3]`, `TempString[5]`).
* An indexed access `UART_Rx[i]` outside the array is a `Fault` of the model.
* One poll of the receive loop sees at most one new byte: the receive interrupt is taken
  to fire between polls, before the flag test.
-/

namespace PWMGen

/-! ## Bytes and C strings -/

/-- Bytes of a string literal. -/
def str (s : String) : List Nat := s.toList.map Char.toNat

/-- Length of the UART receive buffer, `Rx_Buf_Len`. -/
def Rx_Buf_Len : Nat := 50

/-- Length of the UART transmit buffer, `Tx_Buf_Len`. -/
def Tx_Buf_Len : Nat := 50

/-- The C string stored at the start of `mem`: the bytes before the first NUL. -/
def cstr : List Nat → List Nat
  | [] => []
  | c :: cs => if c = 0 then [] else c :: cstr cs

/-- Library `isspace` in the C locale: space, and `\t \n \v \f \r`. -/
def isspace (c : Nat) : Bool := c == 32 || (9 ≤ c && c ≤ 13)

/-- Library `isdigit`. -/
def isdigit (c : Nat) : Bool := 48 ≤ c && c ≤ 57

/-- Digit loop of `atoi`: the value is accumulated in a 16-bit register, without
overflow detection (avr-libc). -/
def atoiDigits : Nat → List Nat → Nat
  | acc, [] => acc
  | acc, c :: cs =>
    if isdigit c then atoiDigits ((acc * 10 + (c - 48)) % 65536) cs else acc

/-- Reading of a 16-bit pattern as a signed `int`. -/
def toInt16 (n : Nat) : Int :=
  if n % 65536 < 32768 then ((n % 65536 : Nat) : Int) else ((n % 65536 : Nat) : Int) - 65536

/-- Library `atoi`: skips leading white space, takes one optional sign, then the
longest run of decimal digits (byte 45 is `-`, byte 43 is `+`); no digit gives 0.  The
scan stops at the first byte that
is not a digit (in particular at a NUL) or where `mem` ends. -/
def atoi (mem : List Nat) : Int :=
  let p := mem.dropWhile isspace
  if p.head? = some 45 then toInt16 (65536 - atoiDigits 0 p.tail)
  else if p.head? = some 43 then toInt16 (atoiDigits 0 p.tail)
  else toInt16 (atoiDigits 0 p)

/-- Library `strncpy(dest, src, n)`: the `n` bytes written to `dest`.  Bytes of `src` are
copied up to its NUL, the remainder of the `n` bytes is filled with NUL.  No NUL is
written after the `n` bytes. -/
def strncpy : List Nat → Nat → List Nat
  | _, 0 => []
  | [], n + 1 => List.replicate (n + 1) 0
  | c :: cs, n + 1 => if c = 0 then List.replicate (n + 1) 0 else c :: strncpy cs n

/-- Library `strncmp(a, b, n)`: difference of the first differing bytes among the first
`n`, comparison stopping after a common NUL; 0 when there is no difference. -/
def strncmp : List Nat → List Nat → Nat → Int
  | _, _, 0 => 0
  | a, b, n + 1 =>
    if a.headD 0 ≠ b.headD 0 then (a.headD 0 : Int) - (b.headD 0 : Int)
    else if a.headD 0 = 0 then 0
    else strncmp a.tail b.tail n

/-- Digits of the `%u` conversion, most significant first. -/
def utoaAux : Nat → Nat → List Nat → List Nat
  | 0, _, acc => acc
  | k + 1, n, acc =>
    if n < 10 then (48 + n) :: acc else utoaAux k (n / 10) ((48 + n % 10) :: acc)

/-- The `%u` conversion of `sprintf` for a 16-bit `unsigned int` argument. -/
def utoa (n : Nat) : List Nat := utoaAux 5 (n % 65536) []

/-- Effect of `sprintf(buf, ...)` producing `text`: the text and a terminating NUL
overwrite the start of the buffer. -/
def sprintf (buf text : List Nat) : List Nat :=
  text ++ 0 :: buf.drop (text.length + 1)

/-! ## Program state -/

/-- Global variables and registers of `main.c`. -/
structure State where
  /-- Timer 1 compare match A: the period register. -/
  OCR1A : Nat
  /-- Timer 1 compare match B: the compare register. -/
  OCR1B : Nat
  /-- Global `uint8_t DutyCycle`. -/
  DutyCycle : Nat
  /-- Global `char UART_Rx [Rx_Buf_Len]`. -/
  UART_Rx : List Nat
  /-- Global `char UART_Tx [Tx_Buf_Len]`. -/
  UART_Tx : List Nat
  /-- Global `char UART_RX_Data`. -/
  UART_RX_Data : Nat
  /-- Global `volatile char Flag_2`. -/
  Flag_2 : Nat
  /-- Bytes written to `UDR0` by `putchUSART`, oldest first. -/
  Sent : List Nat
  deriving DecidableEq, Repr

/-- Values set by `Timer1_Init`; the remaining globals are zero-initialised. -/
def Timer1_Init : State :=
  { OCR1A := 1999
    OCR1B := 1000
    DutyCycle := 127
    UART_Rx := List.replicate Rx_Buf_Len 0
    UART_Tx := List.replicate Tx_Buf_Len 0
    UART_RX_Data := 0
    Flag_2 := 0
    Sent := [] }

/-- Interrupt handler `ISR (USART0_RX_vect)` receiving byte `b`. -/
def USART0_RX_vect (s : State) (b : Nat) : State :=
  { s with UART_RX_Data := b, Flag_2 := 1 }

/-- Function `putchUSART`. -/
def putchUSART (s : State) (tx : Nat) : State :=
  { s with Sent := s.Sent ++ [tx] }

/-- Function `putsUSART`, given the memory from `ptr` onwards. -/
def putsUSART (s : State) : List Nat → State
  | [] => s
  | c :: cs => if c = 0 then s else putsUSART (putchUSART s c) cs

/-! ## Timer reconfiguration -/

/-- Text produced by the format `"PWM set to %u%%\n"`. -/
def msgPWM (percent : Nat) : List Nat :=
  str "PWM set to " ++ utoa percent ++ str "%\n"

/-- Text produced by the format `"Match A\t%u\nMatch B\t%u\n"`. -/
def msgMatch (a b : Nat) : List Nat :=
  str "Match A\t" ++ utoa a ++ str "\nMatch B\t" ++ utoa b ++ str "\n"

/-- Text produced by the format `"Frequency set to %u Hz\n"`. -/
def msgFreq (f : Nat) : List Nat :=
  str "Frequency set to " ++ utoa f ++ str " Hz\n"

/-- Function `SetPWM`. -/
def SetPWM (s : State) : State :=
  let s := if s.DutyCycle > 254 then { s with DutyCycle := 254 } else s
  let temp := s.DutyCycle
  let temp := (temp * s.OCR1A) % 4294967296
  let temp := temp / 255
  let s := { s with OCR1B := temp % 65536 }
  let text := msgPWM ((s.DutyCycle * 100) / 255)
  let s := { s with UART_Tx := sprintf s.UART_Tx text }
  let s := putsUSART s s.UART_Tx
  let text := msgMatch s.OCR1A s.OCR1B
  let s := { s with UART_Tx := sprintf s.UART_Tx text }
  putsUSART s s.UART_Tx

/-- Function `SetFreq`; `Freq` is the `uint16_t` argument. -/
def SetFreq (s : State) (Freq : Nat) : State :=
  let temp := 2000000
  let Freq := if Freq < 40 then 40 else Freq
  let temp := ((temp / Freq) + 4294967296 - 1) % 4294967296
  let s := { s with OCR1A := temp % 65536 }
  let s := SetPWM s
  let text := msgFreq Freq
  let s := { s with UART_Tx := sprintf s.UART_Tx text }
  putsUSART s s.UART_Tx

/-! ## Command parser -/

/-- Function `Uart_Check_String`.  `strncpy` writes only the first 3 (resp. 5) bytes of
`TempString`; `t3` (resp. `t5`) is what memory holds from `TempString[3]`
(resp. `TempString[5]`) onwards, which `atoi` reads when the copied bytes do not end
the number. -/
def Uart_Check_String (s : State) (t3 t5 : List Nat) : State :=
  let Check_String := str "PWM=" ++ [0]
  let s :=
    if strncmp Check_String s.UART_Rx 4 = 0 then
      let TempString := strncpy (s.UART_Rx.drop 4) 3 ++ t3
      let s := { s with DutyCycle := (atoi TempString % 256).toNat }
      SetPWM s
    else s
  let Check_String := str "FREQ=" ++ [0]
  if strncmp Check_String s.UART_Rx 5 = 0 then
    let TempString := strncpy (s.UART_Rx.drop 5) 5 ++ t5
    let Freq := (atoi TempString % 65536).toNat
    SetFreq s Freq
  else s

/-- One pass through the body of the `for` loop of `Uart_Clean`, at index `i`. -/
def cleanStep (s : State) (i : Nat) : State :=
  if s.UART_Rx.getD i 0 = 13 ∨ s.UART_Rx.getD i 0 = 10 then
    { s with UART_Rx := s.UART_Rx.set i 0 }
  else s

/-- Function `Uart_Clean`: the loop over the indices `0 .. Rx_Buf_Len - 1`. -/
def Uart_Clean (s : State) : State :=
  (List.range Rx_Buf_Len).foldl cleanStep s

/-! ## Line collector -/

/-- Ways in which the model of `UART0RX` can fail to produce a state. -/
inductive Fault where
  /-- An indexed access `UART_Rx[i]` with `i` outside `0 .. Rx_Buf_Len - 1`. -/
  | outOfBounds
  /-- The iteration budget of the model ran out. -/
  | outOfFuel
  deriving DecidableEq, Repr

/-- Local variables of `UART0RX`. -/
structure RxLocals where
  /-- Local `uint8_t Rx_Complete`. -/
  Rx_Complete : Nat
  /-- Local `uint8_t Counter`. -/
  Counter : Nat
  /-- Local `uint16_t Time_Out`. -/
  Time_Out : Nat
  deriving DecidableEq, Repr

/-- One pass through the body of the `while (!Rx_Complete)` loop of `UART0RX`. -/
def pollBody (l : RxLocals) (s : State) : Except Fault (RxLocals × State) :=
  let afterRead : Except Fault (RxLocals × State) :=
    if s.Flag_2 = 1 then
      if l.Counter < Rx_Buf_Len then
        .ok ({ l with Counter := (l.Counter + 1) % 256, Time_Out := 0 },
             { s with Flag_2 := 0, UART_Rx := s.UART_Rx.set l.Counter s.UART_RX_Data })
      else .error .outOfBounds
    else .ok (l, s)
  match afterRead with
  | .error e => .error e
  | .ok (l, s) =>
    if 1 ≤ l.Counter ∧ l.Counter - 1 < Rx_Buf_Len then
      let last := s.UART_Rx.getD (l.Counter - 1) 0
      let l := if last = 13 ∨ last = 10 ∨ l.Counter ≥ Rx_Buf_Len then
                 { l with Rx_Complete := 1 } else l
      let l := if l.Time_Out > 2000 then { l with Rx_Complete := 1 } else l
      .ok ({ l with Time_Out := (l.Time_Out + 1) % 65536 }, s)
    else .error .outOfBounds

/-- The `while (!Rx_Complete)` loop of `UART0RX`.  `sched i` is the byte, if any, whose
receive interrupt fires before the flag test of poll iteration `i`. -/
def rxLoop (sched : Nat → Option Nat) : Nat → Nat → RxLocals → State →
    Except Fault (RxLocals × State)
  | 0, _, _, _ => .error .outOfFuel
  | fuel + 1, i, l, s =>
    if l.Rx_Complete ≠ 0 then .ok (l, s)
    else
      let s := match sched i with
        | some b => USART0_RX_vect s b
        | none => s
      match pollBody l s with
      | .error e => .error e
      | .ok (l, s) => rxLoop sched fuel (i + 1) l s

/-- Iteration budget given to `rxLoop` by `UART0RX`. -/
def rxFuel : Nat := 200000

/-- The first part of `UART0RX`: locals, `memset`, and the collection loop. -/
def collect (sched : Nat → Option Nat) (s : State) : Except Fault (RxLocals × State) :=
  let l : RxLocals := { Rx_Complete := 0, Counter := 0, Time_Out := 0 }
  let s := { s with UART_Rx := List.replicate Rx_Buf_Len 0 }
  rxLoop sched rxFuel 0 l s

/-- Function `UART0RX`.  `adj` is what memory holds after the last byte of `UART_Rx`;
`t3` and `t5` are passed to `Uart_Check_String`. -/
def UART0RX (sched : Nat → Option Nat) (adj t3 t5 : List Nat) (s : State) :
    Except Fault State :=
  match collect sched s with
  | .error e => .error e
  | .ok (l, s) =>
    let s := Uart_Clean s
    let s := Uart_Check_String s t3 t5
    let s := { s with Flag_2 := 0 }
    if l.Rx_Complete ≠ 0 ∧ l.Time_Out < 2 then
      let s := putsUSART s (s.UART_Rx ++ adj)
      .ok (putsUSART s (str "\r\n"))
    else .ok s

/-- The collection loop stopped on a stored character: the last byte stored is a carriage
return or a newline, or the buffer holds `Rx_Buf_Len` bytes. -/
def endedOnChar (l : RxLocals) (s : State) : Prop :=
  s.UART_Rx.getD (l.Counter - 1) 0 = 13 ∨ s.UART_Rx.getD (l.Counter - 1) 0 = 10
    ∨ l.Counter ≥ Rx_Buf_Len

instance (l : RxLocals) (s : State) : Decidable (endedOnChar l s) := by
  unfold endedOnChar
  infer_instance

/-- The byte that `Uart_Clean` leaves where it found `c`. -/
def cleanByte (c : Nat) : Nat := if c = 13 ∨ c = 10 then 0 else c

/-- Invariant of the collection loop at the loop test, while `Rx_Complete` is 0: before
the first byte is stored a byte is pending; afterwards the last stored byte is neither
carriage return nor newline. -/
def RxInv (l : RxLocals) (s : State) : Prop :=
  l.Rx_Complete = 0 ∧ l.Counter ≤ 49 ∧ l.Time_Out ≤ 2001 ∧ s.UART_Rx.length = 50
    ∧ (l.Counter = 0 → s.Flag_2 = 1)
    ∧ (1 ≤ l.Counter →
        s.UART_Rx.getD (l.Counter - 1) 0 ≠ 13 ∧ s.UART_Rx.getD (l.Counter - 1) 0 ≠ 10)

/-- What holds when the collection loop, started in state `s0`, has ended with locals `l`
and state `s`. -/
def RxPost (s0 : State) (l : RxLocals) (s : State) : Prop :=
  l.Rx_Complete = 1 ∧ 1 ≤ l.Counter ∧ l.Counter ≤ 50 ∧ s.UART_Rx.length = 50
    ∧ ((endedOnChar l s ∧ l.Time_Out = 1) ∨ (¬ endedOnChar l s ∧ l.Time_Out = 2002))
    ∧ s.OCR1A = s0.OCR1A ∧ s.OCR1B = s0.OCR1B ∧ s.DutyCycle = s0.DutyCycle
    ∧ s.UART_Tx = s0.UART_Tx ∧ s.Sent = s0.Sent

/-- What `UART0RX` leaves in the state before the echo: the collected buffer cleaned and
handed to `Uart_Check_String`, and `Flag_2` cleared. -/
def afterCheck (s : State) (t3 t5 : List Nat) : State :=
  { Uart_Check_String (Uart_Clean s) t3 t5 with Flag_2 := 0 }

/-- A byte-arrival schedule for a 50-character line without terminator: the first `A`
(byte 65) is pending when `UART0RX` is entered, 49 more arrive, one every 16 polls. -/
def fiftyAs : Nat → Option Nat :=
  fun i => if i % 16 = 0 ∧ 0 < i ∧ i < 800 then some 65 else none

/-- The receive buffer after `k` characters `A` of that line have been stored. -/
def bufA (k : Nat) : List Nat :=
  List.replicate k 65 ++ List.replicate (Rx_Buf_Len - k) 0

/-- The state after `k` characters `A` of that line have been stored, starting from the
power-on state. -/
def stateA (k : Nat) : State :=
  { Timer1_Init with Flag_2 := 0, UART_RX_Data := 65, UART_Rx := bufA k }

/-- A byte-arrival schedule for the partial line `FR`: `F` (byte 70) is pending when
`UART0RX` is entered, `R` (byte 82) arrives 16 polls later, then the line is idle. -/
def partialFR : Nat → Option Nat :=
  fun i => if i = 16 then some 82 else none

/-! ## Lines and runs of commands -/

/-- The receive buffer holding the text `l` followed by NUL bytes. -/
def lineBuf (l : List Nat) : List Nat :=
  l ++ List.replicate (Rx_Buf_Len - l.length) 0

/-- One parsed line: buffer content and the memory behind the two `TempString`s. -/
structure Line where
  /-- Content of `UART_Rx` when `Uart_Check_String` runs. -/
  rx : List Nat
  /-- Memory from `TempString[3]` onwards in the `PWM=` branch. -/
  t3 : List Nat
  /-- Memory from `TempString[5]` onwards in the `FREQ=` branch. -/
  t5 : List Nat

/-- Processing of one received line by `Uart_Check_String`. -/
def processLine (s : State) (ln : Line) : State :=
  Uart_Check_String { s with UART_Rx := ln.rx } ln.t3 ln.t5

/-- Processing of a finite sequence of received lines, first to last. -/
def processLines (s : State) (lns : List Line) : State :=
  lns.foldl processLine s

/-! ## Derived quantities used in the statements -/

/-- The compare value computed by `SetPWM` from a duty value and a period, with the
widths of the C variables. -/
def compareOf (d p : Nat) : Nat := ((min d 254 * p) % 4294967296 / 255) % 65536

/-- The effective frequency of `SetFreq`: the argument after the lower clamp. -/
def clampFreq (Freq : Nat) : Nat := if Freq < 40 then 40 else Freq

/-- The period value computed by `SetFreq`, with the widths of the C variables. -/
def periodOf (Freq : Nat) : Nat :=
  ((2000000 / clampFreq Freq + 4294967296 - 1) % 4294967296) % 65536

/-- The number denoted by a list of decimal digit bytes, most significant first. -/
def decVal (ds : List Nat) : Nat := ds.foldl (fun a c => a * 10 + (c - 48)) 0

/-- A byte at which every phase of `atoi` stops: neither white space, sign nor digit.
NUL is such a byte. -/
def stopsAtoi (c : Nat) : Bool := !isspace c && !isdigit c && c != 43 && c != 45

/-- The value `atoi(TempString)` of the `PWM=` branch of `Uart_Check_String`, for buffer
content `rx` and memory `t3` from `TempString[3]` onwards. -/
def pwmRaw (rx t3 : List Nat) : Int := atoi (strncpy (rx.drop 4) 3 ++ t3)

/-- The value `atoi(TempString)` of the `FREQ=` branch of `Uart_Check_String`, for buffer
content `rx` and memory `t5` from `TempString[5]` onwards. -/
def freqRaw (rx t5 : List Nat) : Int := atoi (strncpy (rx.drop 5) 5 ++ t5)

/-- `SetFreq` with the partial steps of its arithmetic checked: `none` when the divisor
of `temp/Freq` is zero, when `(temp/Freq)-1` would pass below zero, or when the result
does not fit the 16-bit register `OCR1A`; otherwise the state that `SetFreq` returns. -/
def SetFreq_checked (s : State) (Freq : Nat) : Option State :=
  let temp := 2000000
  let Freq' := if Freq < 40 then 40 else Freq
  if Freq' = 0 then none
  else if temp / Freq' < 1 then none
  else if temp / Freq' - 1 ≥ 65536 then none
  else some (SetFreq s Freq)

/-- The compare register after `SetFreq f` followed by `SetPWM` on the duty value `d`. -/
def compareAfter (s : State) (f d : Nat) : Nat :=
  (SetPWM { SetFreq s f with DutyCycle := d }).OCR1B

/-- The collection loop of `UART0RX` as `rxLoop`, returning in addition the number of
polls made, that is the index of the poll at which the loop test found `Rx_Complete` set. -/
def rxLoopN (sched : Nat → Option Nat) : Nat → Nat → RxLocals → State →
    Except Fault (Nat × RxLocals × State)
  | 0, _, _, _ => .error .outOfFuel
  | fuel + 1, i, l, s =>
    if l.Rx_Complete ≠ 0 then .ok (i, l, s)
    else
      let s := match sched i with
        | some b => USART0_RX_vect s b
        | none => s
      match pollBody l s with
      | .error e => .error e
      | .ok (l, s) => rxLoopN sched fuel (i + 1) l s

/-- The first part of `UART0RX` as `collect`, returning in addition the number of polls
made by the loop. -/
def collectN (sched : Nat → Option Nat) (s : State) : Except Fault (Nat × RxLocals × State) :=
  let l : RxLocals := { Rx_Complete := 0, Counter := 0, Time_Out := 0 }
  let s := { s with UART_Rx := List.replicate Rx_Buf_Len 0 }
  rxLoopN sched rxFuel 0 l s

/-- The byte stored by poll `i` of the collection loop, if any, when `UART0RX` is entered
with the byte `b0` pending: poll 0 stores the pending byte, unless a byte arrives right
before it and takes its place in `UART_RX_Data`; a later poll stores the byte that
arrives before it. -/
def byteAt (sched : Nat → Option Nat) (b0 i : Nat) : Option Nat :=
  if i = 0 then some ((sched 0).getD b0) else sched i

/-- The bytes stored by the polls `0 .. n-1`, in order of arrival. -/
def received (sched : Nat → Option Nat) (b0 n : Nat) : List Nat :=
  (List.range n).filterMap (byteAt sched b0)

/-- Poll `i` stores a byte that ends the line: a carriage return, a newline, or the
fiftieth byte. -/
def charStop (sched : Nat → Option Nat) (b0 i : Nat) : Prop :=
  ∃ b, byteAt sched b0 i = some b
    ∧ (b = 13 ∨ b = 10 ∨ (received sched b0 (i + 1)).length = 50)

/-- Poll `i` is the 2001st consecutive poll without a new byte. -/
def idleStop (sched : Nat → Option Nat) (b0 i : Nat) : Prop :=
  2000 ≤ i ∧ ∀ j, i - 2000 ≤ j → j ≤ i → byteAt sched b0 j = none

/-- Invariant of the collection loop at the loop test before poll `i ≥ 1`, in terms of the
bytes that arrived: the buffer holds them followed by zeros, `Time_Out - 1` idle polls
have passed since the last byte, and no earlier poll met a condition that ends the
loop. -/
def RxTrace (sched : Nat → Option Nat) (b0 i : Nat) (l : RxLocals) (s : State) : Prop :=
  l.Rx_Complete = 0 ∧ 1 ≤ i
    ∧ l.Counter = (received sched b0 i).length ∧ 1 ≤ l.Counter ∧ l.Counter ≤ 49
    ∧ s.UART_Rx = received sched b0 i ++ List.replicate (50 - l.Counter) 0
    ∧ (s.UART_Rx.getD (l.Counter - 1) 0 ≠ 13 ∧ s.UART_Rx.getD (l.Counter - 1) 0 ≠ 10)
    ∧ s.Flag_2 ≠ 1
    ∧ 1 ≤ l.Time_Out ∧ l.Time_Out ≤ 2001 ∧ l.Time_Out ≤ i
    ∧ byteAt sched b0 (i - l.Time_Out) ≠ none
    ∧ (∀ j, i - l.Time_Out < j → j < i → byteAt sched b0 j = none)
    ∧ (∀ j, j < i → ¬ charStop sched b0 j ∧ ¬ idleStop sched b0 j)

/-- What holds when the collection loop has ended after `n` polls with locals `l` and
state `s`: poll `n-1` is the first poll that meets a condition ending the loop, and the
buffer holds the bytes stored so far followed by zeros. -/
def RxEnd (sched : Nat → Option Nat) (b0 n : Nat) (l : RxLocals) (s : State) : Prop :=
  1 ≤ n
    ∧ (charStop sched b0 (n - 1) ∨ idleStop sched b0 (n - 1))
    ∧ (∀ j, j < n - 1 → ¬ charStop sched b0 j ∧ ¬ idleStop sched b0 j)
    ∧ l.Counter = (received sched b0 n).length
    ∧ s.UART_Rx
        = received sched b0 n ++ List.replicate (50 - (received sched b0 n).length) 0

/-! ## Transmission lemmas -/

theorem putsUSART_eq (s : State) (mem : List Nat) :
    putsUSART s mem = { s with Sent := s.Sent ++ cstr mem } := by
  induction mem generalizing s with
  | nil => simp [putsUSART, cstr]
  | cons c cs ih =>
    by_cases hc : c = 0
    · simp [putsUSART, cstr, hc]
    · simp [putsUSART, cstr, hc, ih, putchUSART]

theorem cstr_append_zero (text rest : List Nat) (h : ∀ c ∈ text, c ≠ 0) :
    cstr (text ++ 0 :: rest) = text := by
  induction text with
  | nil => simp [cstr]
  | cons c cs ih =>
    have hc : c ≠ 0 := h c (by simp)
    have hcs : ∀ x ∈ cs, x ≠ 0 := fun x hx => h x (by simp [hx])
    simp [cstr, hc, ih hcs]

theorem cstr_sprintf (buf text : List Nat) (h : ∀ c ∈ text, c ≠ 0) :
    cstr (sprintf buf text) = text := by
  unfold sprintf
  exact cstr_append_zero text _ h

theorem utoaAux_digits (k n : Nat) (acc : List Nat)
    (hacc : ∀ c ∈ acc, 48 ≤ c ∧ c ≤ 57) : ∀ c ∈ utoaAux k n acc, 48 ≤ c ∧ c ≤ 57 := by
  induction k generalizing n acc with
  | zero => simpa [utoaAux] using hacc
  | succ k ih =>
    unfold utoaAux
    split
    · intro c hc
      rcases List.mem_cons.mp hc with h | h
      · omega
      · exact hacc c h
    · apply ih
      intro c hc
      rcases List.mem_cons.mp hc with h | h
      · omega
      · exact hacc c h

theorem utoa_digits (n : Nat) : ∀ c ∈ utoa n, 48 ≤ c ∧ c ≤ 57 :=
  utoaAux_digits 5 _ [] (by simp)

theorem utoa_ne_zero (n : Nat) : ∀ c ∈ utoa n, c ≠ 0 := by
  intro c hc
  have := utoa_digits n c hc
  omega

theorem msgPWM_ne_zero (n : Nat) : ∀ c ∈ msgPWM n, c ≠ 0 := by
  intro c hc
  simp only [msgPWM, List.mem_append] at hc
  rcases hc with (h | h) | h
  · revert c; decide
  · exact utoa_ne_zero n c h
  · revert c; decide

theorem msgMatch_ne_zero (a b : Nat) : ∀ c ∈ msgMatch a b, c ≠ 0 := by
  intro c hc
  simp only [msgMatch, List.mem_append] at hc
  rcases hc with (((h | h) | h) | h) | h
  · revert c; decide
  · exact utoa_ne_zero a c h
  · revert c; decide
  · exact utoa_ne_zero b c h
  · revert c; decide

theorem msgFreq_ne_zero (n : Nat) : ∀ c ∈ msgFreq n, c ≠ 0 := by
  intro c hc
  simp only [msgFreq, List.mem_append] at hc
  rcases hc with (h | h) | h
  · revert c; decide
  · exact utoa_ne_zero n c h
  · revert c; decide

theorem cstr_sprintf_msgPWM (buf : List Nat) (n : Nat) :
    cstr (sprintf buf (msgPWM n)) = msgPWM n := cstr_sprintf _ _ (msgPWM_ne_zero n)

theorem cstr_sprintf_msgMatch (buf : List Nat) (a b : Nat) :
    cstr (sprintf buf (msgMatch a b)) = msgMatch a b := cstr_sprintf _ _ (msgMatch_ne_zero a b)

theorem cstr_sprintf_msgFreq (buf : List Nat) (n : Nat) :
    cstr (sprintf buf (msgFreq n)) = msgFreq n := cstr_sprintf _ _ (msgFreq_ne_zero n)

/-! ## The `%u` conversion denotes its argument -/

theorem utoaAux_spec :
    ∀ (k n : Nat) (acc : List Nat), n < 10 ^ k →
      ∃ ds, utoaAux k n acc = ds ++ acc
        ∧ ∀ a, ds.foldl (fun a c => a * 10 + (c - 48)) a = a * 10 ^ ds.length + n := by
  intro k
  induction k with
  | zero =>
    intro n acc hn
    have h0 : n = 0 := by simpa using hn
    subst h0
    exact ⟨[], rfl, fun a => by simp⟩
  | succ k ih =>
    intro n acc hn
    by_cases h10 : n < 10
    · refine ⟨[48 + n], by simp [utoaAux, h10], fun a => by simp⟩
    · have hdiv : n / 10 < 10 ^ k := by
        rw [Nat.div_lt_iff_lt_mul (by norm_num)]
        rw [pow_succ] at hn
        exact hn
      obtain ⟨ds, hds, hval⟩ := ih (n / 10) ((48 + n % 10) :: acc) hdiv
      refine ⟨ds ++ [48 + n % 10], ?_, fun a => ?_⟩
      · simp only [utoaAux, h10, ↓reduceIte, hds, List.append_assoc, List.singleton_append]
      · rw [List.foldl_append, hval a]
        simp only [List.foldl_cons, List.foldl_nil, List.length_append, List.length_singleton,
          Nat.add_sub_cancel_left, pow_succ]
        have := Nat.div_add_mod n 10
        nlinarith [this]

/-- The digits produced by `%u` denote the 16-bit argument. -/
theorem utoa_decVal (n : Nat) : decVal (utoa n) = n % 65536 := by
  obtain ⟨ds, hds, hval⟩ := utoaAux_spec 5 (n % 65536) [] (by
    have := Nat.mod_lt n (show 0 < 65536 by norm_num)
    omega)
  unfold utoa decVal
  rw [hds, List.append_nil, hval 0]
  simp

/-! ## Closed forms of `SetPWM` and `SetFreq` -/

theorem SetPWM_eq (s : State) :
    SetPWM s =
      { s with
        DutyCycle := min s.DutyCycle 254
        OCR1B := compareOf s.DutyCycle s.OCR1A
        UART_Tx := sprintf (sprintf s.UART_Tx (msgPWM (min s.DutyCycle 254 * 100 / 255)))
          (msgMatch s.OCR1A (compareOf s.DutyCycle s.OCR1A))
        Sent := s.Sent ++ msgPWM (min s.DutyCycle 254 * 100 / 255)
          ++ msgMatch s.OCR1A (compareOf s.DutyCycle s.OCR1A) } := by
  by_cases h : s.DutyCycle > 254
  · have hm : min s.DutyCycle 254 = 254 := by omega
    simp only [SetPWM, h, ↓reduceIte, putsUSART_eq, cstr_sprintf_msgPWM,
      cstr_sprintf_msgMatch, List.append_assoc, compareOf, hm]
  · have hm : min s.DutyCycle 254 = s.DutyCycle := by omega
    simp only [SetPWM, h, ↓reduceIte, putsUSART_eq, cstr_sprintf_msgPWM,
      cstr_sprintf_msgMatch, List.append_assoc, compareOf, hm]

theorem SetFreq_eq (s : State) (Freq : Nat) :
    SetFreq s Freq =
      { s with
        OCR1A := periodOf Freq
        DutyCycle := min s.DutyCycle 254
        OCR1B := compareOf s.DutyCycle (periodOf Freq)
        UART_Tx := sprintf (sprintf (sprintf s.UART_Tx
            (msgPWM (min s.DutyCycle 254 * 100 / 255)))
            (msgMatch (periodOf Freq) (compareOf s.DutyCycle (periodOf Freq))))
            (msgFreq (clampFreq Freq))
        Sent := s.Sent ++ msgPWM (min s.DutyCycle 254 * 100 / 255)
          ++ msgMatch (periodOf Freq) (compareOf s.DutyCycle (periodOf Freq))
          ++ msgFreq (clampFreq Freq) } := by
  simp only [SetFreq, SetPWM_eq, putsUSART_eq, cstr_sprintf_msgFreq, periodOf, clampFreq]

theorem clampFreq_eq (Freq : Nat) : clampFreq Freq = max Freq 40 := by
  unfold clampFreq
  split <;> omega

theorem periodOf_eq (Freq : Nat) (hf : Freq < 65536) :
    periodOf Freq = 2000000 / max Freq 40 - 1 := by
  unfold periodOf
  rw [clampFreq_eq]
  have h40 : 40 ≤ max Freq 40 := le_max_right _ _
  have hle : 2000000 / max Freq 40 ≤ 50000 := by
    calc 2000000 / max Freq 40 ≤ 2000000 / 40 := Nat.div_le_div_left h40 (by norm_num)
      _ = 50000 := by norm_num
  have hge : 1 ≤ 2000000 / max Freq 40 := by
    rw [Nat.le_div_iff_mul_le (by omega)]
    have : max Freq 40 < 65536 := max_lt hf (by norm_num)
    omega
  omega

theorem compareOf_eq (d p : Nat) (hp : p < 65536) :
    compareOf d p = min d 254 * p / 255 := by
  unfold compareOf
  have hm : min d 254 ≤ 254 := min_le_right _ _
  have h1 : min d 254 * p ≤ 254 * 65535 := Nat.mul_le_mul hm (by omega)
  have h2 : min d 254 * p / 255 ≤ 254 * 65535 / 255 := Nat.div_le_div_right h1
  have h3 : min d 254 * p % 4294967296 = min d 254 * p := Nat.mod_eq_of_lt (by omega)
  rw [h3]
  exact Nat.mod_eq_of_lt (by omega)

theorem compareOf_le (d p : Nat) : compareOf d p ≤ p := by
  rcases Nat.lt_or_ge p 65536 with hp | hp
  · rw [compareOf_eq d p hp]
    have hm : min d 254 ≤ 254 := min_le_right _ _
    have h1 : min d 254 * p ≤ 255 * p := Nat.mul_le_mul (by omega) le_rfl
    calc min d 254 * p / 255 ≤ 255 * p / 255 := Nat.div_le_div_right h1
      _ = p := by omega
  · unfold compareOf
    have : (min d 254 * p) % 4294967296 / 255 % 65536 < 65536 := Nat.mod_lt _ (by norm_num)
    omega

theorem SetPWM_OCR1A (s : State) : (SetPWM s).OCR1A = s.OCR1A := by
  rw [SetPWM_eq]

theorem SetPWM_OCR1B (s : State) : (SetPWM s).OCR1B = compareOf s.DutyCycle s.OCR1A := by
  rw [SetPWM_eq]

theorem SetPWM_DutyCycle (s : State) : (SetPWM s).DutyCycle = min s.DutyCycle 254 := by
  rw [SetPWM_eq]

theorem SetPWM_UART_Rx (s : State) : (SetPWM s).UART_Rx = s.UART_Rx := by
  rw [SetPWM_eq]

theorem SetPWM_Sent (s : State) :
    (SetPWM s).Sent = s.Sent ++ msgPWM (min s.DutyCycle 254 * 100 / 255)
      ++ msgMatch s.OCR1A (compareOf s.DutyCycle s.OCR1A) := by
  rw [SetPWM_eq]

theorem SetFreq_OCR1A (s : State) (Freq : Nat) : (SetFreq s Freq).OCR1A = periodOf Freq := by
  rw [SetFreq_eq]

theorem SetFreq_OCR1B (s : State) (Freq : Nat) :
    (SetFreq s Freq).OCR1B = compareOf s.DutyCycle (periodOf Freq) := by
  rw [SetFreq_eq]

theorem SetFreq_DutyCycle (s : State) (Freq : Nat) :
    (SetFreq s Freq).DutyCycle = min s.DutyCycle 254 := by
  rw [SetFreq_eq]

theorem SetFreq_Sent (s : State) (Freq : Nat) :
    (SetFreq s Freq).Sent = s.Sent ++ msgPWM (min s.DutyCycle 254 * 100 / 255)
      ++ msgMatch (periodOf Freq) (compareOf s.DutyCycle (periodOf Freq))
      ++ msgFreq (clampFreq Freq) := by
  rw [SetFreq_eq]

theorem periodOf_lt (Freq : Nat) : periodOf Freq < 65536 :=
  Nat.mod_lt _ (by norm_num)

/-! ## The two prefix tests of `Uart_Check_String` -/

theorem strncmp_eq_zero_iff (pre rx : List Nat) (h : ∀ c ∈ pre, c ≠ 0) :
    strncmp (pre ++ [0]) rx pre.length = 0 ↔ pre <+: rx := by
  induction pre generalizing rx with
  | nil => simp [strncmp]
  | cons c cs ih =>
    have hc : c ≠ 0 := h c (by simp)
    have hcs : ∀ x ∈ cs, x ≠ 0 := fun x hx => h x (by simp [hx])
    cases rx with
    | nil =>
      simp only [List.cons_append, List.length_cons, strncmp, List.headD_cons, List.headD_nil]
      simp [hc]
    | cons r rs =>
      simp only [List.cons_append, List.length_cons, strncmp, List.headD_cons, List.tail_cons]
      by_cases hr : c = r
      · subst hr
        simp [hc, ih rs hcs, List.cons_prefix_cons]
      · have : (c : Int) - (r : Int) ≠ 0 := by omega
        simp [hr, this, List.cons_prefix_cons]

theorem str_PWM : str "PWM=" = [80, 87, 77, 61] := by decide
theorem str_FREQ : str "FREQ=" = [70, 82, 69, 81, 61] := by decide

theorem strncmp_PWM (rx : List Nat) :
    strncmp (str "PWM=" ++ [0]) rx 4 = 0 ↔ str "PWM=" <+: rx := by
  have := strncmp_eq_zero_iff (str "PWM=") rx (by decide)
  simpa [str_PWM] using this

theorem strncmp_FREQ (rx : List Nat) :
    strncmp (str "FREQ=" ++ [0]) rx 5 = 0 ↔ str "FREQ=" <+: rx := by
  have := strncmp_eq_zero_iff (str "FREQ=") rx (by decide)
  simpa [str_FREQ] using this

theorem not_PWM_and_FREQ (rx : List Nat) (h1 : str "PWM=" <+: rx) (h2 : str "FREQ=" <+: rx) :
    False := by
  rw [str_PWM] at h1
  rw [str_FREQ] at h2
  obtain ⟨a, rfl⟩ := h1
  obtain ⟨b, hb⟩ := h2
  simp at hb

theorem Uart_Check_String_PWM (s : State) (t3 t5 : List Nat) (h : str "PWM=" <+: s.UART_Rx) :
    Uart_Check_String s t3 t5
      = SetPWM { s with DutyCycle := (pwmRaw s.UART_Rx t3 % 256).toNat } := by
  have h1 := (strncmp_PWM s.UART_Rx).mpr h
  have h2 : ¬ strncmp (str "FREQ=" ++ [0]) s.UART_Rx 5 = 0 := fun h2 =>
    not_PWM_and_FREQ _ h ((strncmp_FREQ _).mp h2)
  simp only [Uart_Check_String, h1, ↓reduceIte, SetPWM_UART_Rx, h2, pwmRaw]

theorem Uart_Check_String_FREQ (s : State) (t3 t5 : List Nat) (h : str "FREQ=" <+: s.UART_Rx) :
    Uart_Check_String s t3 t5 = SetFreq s (freqRaw s.UART_Rx t5 % 65536).toNat := by
  have h1 := (strncmp_FREQ s.UART_Rx).mpr h
  have h2 : ¬ strncmp (str "PWM=" ++ [0]) s.UART_Rx 4 = 0 := fun h2 =>
    not_PWM_and_FREQ _ ((strncmp_PWM _).mp h2) h
  simp only [Uart_Check_String, h1, ↓reduceIte, h2, freqRaw]

theorem Uart_Check_String_other (s : State) (t3 t5 : List Nat)
    (h1 : ¬ str "PWM=" <+: s.UART_Rx) (h2 : ¬ str "FREQ=" <+: s.UART_Rx) :
    Uart_Check_String s t3 t5 = s := by
  have h1' : ¬ strncmp (str "PWM=" ++ [0]) s.UART_Rx 4 = 0 := fun h => h1 ((strncmp_PWM _).mp h)
  have h2' : ¬ strncmp (str "FREQ=" ++ [0]) s.UART_Rx 5 = 0 := fun h => h2 ((strncmp_FREQ _).mp h)
  simp only [Uart_Check_String, h1', ↓reduceIte, h2']

/-! ## C1: the compare value written by `SetPWM` -/

/-- C1: for every stored duty value `d` (in particular `0..255`) and every 16-bit period
`p`, `SetPWM` writes `floor(min(d,254) * p / 255)` to the compare register `OCR1B`; the 32-bit product
does not overflow and the quotient fits the 16-bit register, so nothing is truncated;
the period register is left as it was and the new compare value is at most the period. -/
theorem SetPWM_compare (s : State) (hp : s.OCR1A < 65536) :
    (SetPWM s).OCR1B = min s.DutyCycle 254 * s.OCR1A / 255
      ∧ min s.DutyCycle 254 * s.OCR1A < 4294967296
      ∧ min s.DutyCycle 254 * s.OCR1A / 255 < 65536
      ∧ (SetPWM s).OCR1A = s.OCR1A
      ∧ (SetPWM s).OCR1B ≤ s.OCR1A := by
  have hm : min s.DutyCycle 254 ≤ 254 := min_le_right _ _
  have h1 : min s.DutyCycle 254 * s.OCR1A ≤ 254 * 65535 := Nat.mul_le_mul hm (by omega)
  have h2 : min s.DutyCycle 254 * s.OCR1A / 255 ≤ 254 * 65535 / 255 :=
    Nat.div_le_div_right h1
  rw [SetPWM_eq]
  refine ⟨compareOf_eq _ _ hp, by omega, by omega, rfl, compareOf_le _ _⟩

/-- Witness of C1 at the power-on state (duty 127, period 1999). -/
theorem SetPWM_compare_witness :
    (SetPWM Timer1_Init).OCR1B = min Timer1_Init.DutyCycle 254 * Timer1_Init.OCR1A / 255
      ∧ min Timer1_Init.DutyCycle 254 * Timer1_Init.OCR1A < 4294967296
      ∧ min Timer1_Init.DutyCycle 254 * Timer1_Init.OCR1A / 255 < 65536
      ∧ (SetPWM Timer1_Init).OCR1A = Timer1_Init.OCR1A
      ∧ (SetPWM Timer1_Init).OCR1B ≤ Timer1_Init.OCR1A :=
  SetPWM_compare Timer1_Init (by decide)

/-! ## C2, C3: the period written by `SetFreq` and the rescaled compare value -/

/-- C2: for every 16-bit frequency input `f` and every prior state, `SetFreq f` sets the
period register `OCR1A` to `floor(2000000 / max(f,40)) - 1`. -/
theorem SetFreq_period (s : State) (f : Nat) (hf : f < 65536) :
    (SetFreq s f).OCR1A = 2000000 / max f 40 - 1 := by
  rw [SetFreq_OCR1A, periodOf_eq f hf]

/-- Witness of C2: from the power-on state, `SetFreq 2000` sets the period to 999. -/
theorem SetFreq_period_witness :
    (SetFreq Timer1_Init 2000).OCR1A = 2000000 / max 2000 40 - 1 :=
  SetFreq_period Timer1_Init 2000 (by decide)

/-- C3: for every frequency input `f` and every state whose stored duty cycle `d` is in
`0..254`, `SetFreq f` leaves the stored duty cycle equal to `d` and sets the compare
register to `floor(d * p' / 255)`, where `p'` is the period register after the call,
which is the value computed from `f` by this call and not the period before it. -/
theorem SetFreq_rescale (s : State) (f : Nat) (hd : s.DutyCycle ≤ 254) :
    (SetFreq s f).DutyCycle = s.DutyCycle
      ∧ (SetFreq s f).OCR1B = s.DutyCycle * (SetFreq s f).OCR1A / 255
      ∧ (SetFreq s f).OCR1A = periodOf f := by
  rw [SetFreq_DutyCycle, SetFreq_OCR1B, SetFreq_OCR1A, compareOf_eq _ _ (periodOf_lt f),
    min_eq_left hd]
  exact ⟨rfl, rfl, rfl⟩

/-- Witness of C3: the power-on state (duty 127, period 1999) and `f = 2000`. -/
theorem SetFreq_rescale_witness :
    (SetFreq Timer1_Init 2000).DutyCycle = Timer1_Init.DutyCycle
      ∧ (SetFreq Timer1_Init 2000).OCR1B
          = Timer1_Init.DutyCycle * (SetFreq Timer1_Init 2000).OCR1A / 255
      ∧ (SetFreq Timer1_Init 2000).OCR1A = periodOf 2000 :=
  SetFreq_rescale Timer1_Init 2000 (by decide)

/-! ## C4: invariants of the states reached by processing lines -/

theorem processLine_inv (s : State) (ln : Line)
    (h : s.OCR1B ≤ s.OCR1A ∧ s.DutyCycle ≤ 254) :
    (processLine s ln).OCR1B ≤ (processLine s ln).OCR1A
      ∧ (processLine s ln).DutyCycle ≤ 254 := by
  unfold processLine
  by_cases h1 : str "PWM=" <+: ln.rx
  · rw [Uart_Check_String_PWM _ _ _ h1, SetPWM_OCR1B, SetPWM_OCR1A, SetPWM_DutyCycle]
    exact ⟨compareOf_le _ _, min_le_right _ _⟩
  · by_cases h2 : str "FREQ=" <+: ln.rx
    · rw [Uart_Check_String_FREQ _ _ _ h2, SetFreq_OCR1B, SetFreq_OCR1A, SetFreq_DutyCycle]
      exact ⟨compareOf_le _ _, min_le_right _ _⟩
    · rw [Uart_Check_String_other _ _ _ h1 h2]
      exact h

theorem processLines_inv (lns : List Line) (s : State)
    (h : s.OCR1B ≤ s.OCR1A ∧ s.DutyCycle ≤ 254) :
    (processLines s lns).OCR1B ≤ (processLines s lns).OCR1A
      ∧ (processLines s lns).DutyCycle ≤ 254 := by
  induction lns generalizing s with
  | nil => exact h
  | cons ln rest ih => exact ih (processLine s ln) (processLine_inv s ln h)

/-- C4: in every state reached from the `Timer1_Init` state (period 1999, compare 1000,
duty 127) by processing any finite sequence of received lines through
`Uart_Check_String`, the compare register is at most the period register and the stored
duty cycle is in `0..254`. -/
theorem reachable_compare_le_period (lns : List Line) :
    (processLines Timer1_Init lns).OCR1B ≤ (processLines Timer1_Init lns).OCR1A
      ∧ (processLines Timer1_Init lns).DutyCycle ≤ 254 :=
  processLines_inv lns Timer1_Init (by decide)

/-! ## C9: lines without a command prefix -/

/-- C9: for every line that begins with neither `PWM=` nor `FREQ=` (exact, case-sensitive),
`Uart_Check_String` changes nothing: the period register, the compare register and the
stored duty cycle keep their values and no byte is transmitted. -/
theorem Uart_Check_String_unrecognized (s : State) (t3 t5 : List Nat)
    (h1 : ¬ str "PWM=" <+: s.UART_Rx) (h2 : ¬ str "FREQ=" <+: s.UART_Rx) :
    Uart_Check_String s t3 t5 = s
      ∧ (Uart_Check_String s t3 t5).OCR1A = s.OCR1A
      ∧ (Uart_Check_String s t3 t5).OCR1B = s.OCR1B
      ∧ (Uart_Check_String s t3 t5).DutyCycle = s.DutyCycle
      ∧ (Uart_Check_String s t3 t5).Sent = s.Sent := by
  rw [Uart_Check_String_other s t3 t5 h1 h2]
  exact ⟨rfl, rfl, rfl, rfl, rfl⟩

/-- Witness of C9: the line `FR` received in the power-on state. -/
theorem Uart_Check_String_unrecognized_witness :
    Uart_Check_String { Timer1_Init with UART_Rx := lineBuf (str "FR") } [] []
        = { Timer1_Init with UART_Rx := lineBuf (str "FR") }
      ∧ (Uart_Check_String { Timer1_Init with UART_Rx := lineBuf (str "FR") } [] []).OCR1A
          = 1999
      ∧ (Uart_Check_String { Timer1_Init with UART_Rx := lineBuf (str "FR") } [] []).OCR1B
          = 1000
      ∧ (Uart_Check_String { Timer1_Init with UART_Rx := lineBuf (str "FR") } [] []).DutyCycle
          = 127
      ∧ (Uart_Check_String { Timer1_Init with UART_Rx := lineBuf (str "FR") } [] []).Sent
          = [] :=
  Uart_Check_String_unrecognized { Timer1_Init with UART_Rx := lineBuf (str "FR") } [] []
    (by decide) (by decide)

/-! ## Parsing lemmas: `atoi`, `strncpy`, and lines in the buffer -/

theorem atoiDigits_stop (a : Nat) (rest : List Nat)
    (hrest : ∀ c, rest.head? = some c → isdigit c = false) : atoiDigits a rest = a := by
  cases rest with
  | nil => rfl
  | cons c cs => simp [atoiDigits, hrest c rfl]

theorem atoiDigits_append (ds rest : List Nat) (a : Nat)
    (hdig : ∀ c ∈ ds, isdigit c = true)
    (hrest : ∀ c, rest.head? = some c → isdigit c = false) :
    atoiDigits (a % 65536) (ds ++ rest)
      = (ds.foldl (fun a c => a * 10 + (c - 48)) a) % 65536 := by
  induction ds generalizing a with
  | nil => simpa using atoiDigits_stop _ rest hrest
  | cons c cs ih =>
    have hc : isdigit c = true := hdig c (by simp)
    have hcs : ∀ x ∈ cs, isdigit x = true := fun x hx => hdig x (by simp [hx])
    have hmod : (a % 65536 * 10 + (c - 48)) % 65536 = (a * 10 + (c - 48)) % 65536 := by omega
    simp only [List.cons_append, atoiDigits, hc, ↓reduceIte, List.foldl_cons, hmod]
    exact ih _ hcs

theorem atoiDigits_same (u rest : List Nat) (a : Nat)
    (hrest : ∀ c, rest.head? = some c → isdigit c = false) :
    atoiDigits a (u ++ rest) = atoiDigits a u := by
  induction u generalizing a with
  | nil => simpa [atoiDigits] using atoiDigits_stop a rest hrest
  | cons c cs ih =>
    by_cases hc : isdigit c = true
    · simp only [List.cons_append, atoiDigits, hc, ↓reduceIte]
      exact ih _
    · simp only [List.cons_append, atoiDigits, hc]
      rfl

theorem isdigit_not_space (c : Nat) (h : isdigit c = true) :
    isspace c = false ∧ c ≠ 45 ∧ c ≠ 43 := by
  simp only [isdigit, Bool.and_eq_true, decide_eq_true_eq] at h
  refine ⟨?_, by omega, by omega⟩
  simp only [isspace, Bool.or_eq_false_iff, beq_eq_false_iff_ne, Bool.and_eq_false_iff, decide_eq_false_iff_not]
  omega

theorem atoi_digits (c : Nat) (cs rest : List Nat)
    (hdig : ∀ x ∈ c :: cs, isdigit x = true)
    (hrest : ∀ x, rest.head? = some x → isdigit x = false) :
    atoi (c :: cs ++ rest) = toInt16 (decVal (c :: cs)) := by
  obtain ⟨h1, h2, h3⟩ := isdigit_not_space c (hdig c (by simp))
  have hd : (c :: cs ++ rest).dropWhile isspace = c :: cs ++ rest := by
    simp [List.dropWhile, h1]
  have := atoiDigits_append (c :: cs) rest 0 hdig hrest
  simp only [Nat.zero_mod] at this
  unfold atoi
  simp only [hd]
  rw [this]
  simp [h2, h3, toInt16, decVal]

theorem toInt16_mod_65536 (n : Nat) : (toInt16 n % 65536).toNat = n % 65536 := by
  unfold toInt16
  split <;> omega

theorem toInt16_mod_256 (n : Nat) : (toInt16 n % 256).toNat = n % 256 := by
  unfold toInt16
  split <;> omega

theorem toInt16_small (n : Nat) (h : n < 32768) : toInt16 n = (n : Int) := by
  unfold toInt16
  have : n % 65536 = n := Nat.mod_eq_of_lt (by omega)
  simp [this, h]

theorem cstr_append_replicate (text : List Nat) (k : Nat) (h : ∀ c ∈ text, c ≠ 0) :
    cstr (text ++ List.replicate k 0) = text := by
  induction text with
  | nil => cases k <;> simp [cstr, List.replicate]
  | cons c cs ih =>
    have hc : c ≠ 0 := h c (by simp)
    have hcs : ∀ x ∈ cs, x ≠ 0 := fun x hx => h x (by simp [hx])
    simp [cstr, hc, ih hcs]

theorem strncpy_eq (mem : List Nat) (n : Nat) :
    strncpy mem n
      = (cstr mem).take n ++ List.replicate (n - ((cstr mem).take n).length) 0 := by
  induction n generalizing mem with
  | zero => simp [strncpy]
  | succ n ih =>
    cases mem with
    | nil => simp [strncpy, cstr]
    | cons c cs =>
      by_cases hc : c = 0
      · simp [strncpy, cstr, hc]
      · simp [strncpy, cstr, hc, ih cs]

theorem isdigit_ne_zero (ds : List Nat) (h : ∀ c ∈ ds, isdigit c = true) :
    ∀ c ∈ ds, c ≠ 0 := by
  intro c hc h0
  have := h c hc
  rw [h0] at this
  exact absurd this (by decide)

theorem lineBuf_drop (pre ds : List Nat) :
    (lineBuf (pre ++ ds)).drop pre.length
      = ds ++ List.replicate (Rx_Buf_Len - (pre ++ ds).length) 0 := by
  unfold lineBuf
  rw [List.append_assoc, List.drop_left]

theorem lineBuf_starts (pre ds : List Nat) : pre <+: lineBuf (pre ++ ds) := by
  unfold lineBuf
  rw [List.append_assoc]
  exact List.prefix_append _ _

theorem freqRaw_line (ds t5 : List Nat)
    (hlen : 1 ≤ ds.length ∧ ds.length ≤ 5)
    (hdig : ∀ c ∈ ds, isdigit c = true)
    (ht5 : ds.length = 5 → ∀ c, t5.head? = some c → isdigit c = false) :
    freqRaw (lineBuf (str "FREQ=" ++ ds)) t5 = toInt16 (decVal ds) := by
  have hdrop := lineBuf_drop (str "FREQ=") ds
  have hl : (str "FREQ=").length = 5 := by decide
  rw [hl] at hdrop
  unfold freqRaw
  rw [hdrop, strncpy_eq, cstr_append_replicate _ _ (isdigit_ne_zero ds hdig),
    List.take_of_length_le hlen.2, List.append_assoc]
  cases ds with
  | nil => simp at hlen
  | cons c cs =>
    apply atoi_digits c cs _ hdig
    intro x hx
    by_cases h5 : (c :: cs).length = 5
    · rw [h5] at hx
      simp only [Nat.sub_self, List.replicate_zero, List.nil_append] at hx
      exact ht5 h5 x hx
    · have hlt : 5 - (c :: cs).length = (4 - (c :: cs).length) + 1 := by
        have := hlen.2
        omega
      rw [hlt, List.replicate_succ] at hx
      simp only [List.cons_append, List.head?_cons, Option.some.injEq] at hx
      subst hx
      decide

theorem pwmRaw_line (ds t3 : List Nat)
    (hlen : 1 ≤ ds.length ∧ ds.length ≤ 3)
    (hdig : ∀ c ∈ ds, isdigit c = true)
    (ht3 : ds.length = 3 → ∀ c, t3.head? = some c → isdigit c = false) :
    pwmRaw (lineBuf (str "PWM=" ++ ds)) t3 = toInt16 (decVal ds) := by
  have hdrop := lineBuf_drop (str "PWM=") ds
  have hl : (str "PWM=").length = 4 := by decide
  rw [hl] at hdrop
  unfold pwmRaw
  rw [hdrop, strncpy_eq, cstr_append_replicate _ _ (isdigit_ne_zero ds hdig),
    List.take_of_length_le hlen.2, List.append_assoc]
  cases ds with
  | nil => simp at hlen
  | cons c cs =>
    apply atoi_digits c cs _ hdig
    intro x hx
    by_cases h3 : (c :: cs).length = 3
    · rw [h3] at hx
      simp only [Nat.sub_self, List.replicate_zero, List.nil_append] at hx
      exact ht3 h3 x hx
    · have hlt : 3 - (c :: cs).length = (2 - (c :: cs).length) + 1 := by
        have := hlen.2
        omega
      rw [hlt, List.replicate_succ] at hx
      simp only [List.cons_append, List.head?_cons, Option.some.injEq] at hx
      subst hx
      decide

theorem strncpy_length (mem : List Nat) (n : Nat) : (strncpy mem n).length = n := by
  induction n generalizing mem with
  | zero => simp [strncpy]
  | succ n ih =>
    cases mem with
    | nil => simp [strncpy]
    | cons c cs =>
      by_cases hc : c = 0
      · simp [strncpy, hc]
      · simp [strncpy, hc, ih cs]

theorem stopsAtoi_iff (c : Nat) :
    stopsAtoi c = true ↔ isspace c = false ∧ isdigit c = false ∧ c ≠ 43 ∧ c ≠ 45 := by
  simp [stopsAtoi, and_assoc]

theorem atoi_cons_space (c : Nat) (mem : List Nat) (h : isspace c = true) :
    atoi (c :: mem) = atoi mem := by
  simp [atoi, List.dropWhile, h]

theorem atoi_stop (c : Nat) (cs : List Nat) (h : stopsAtoi c = true) : atoi (c :: cs) = 0 := by
  obtain ⟨h1, h2, h3, h4⟩ := (stopsAtoi_iff c).mp h
  simp [atoi, List.dropWhile, h1, h3, h4, atoiDigits, h2, toInt16]

theorem atoi_append_stop (w t3 : List Nat)
    (ht3 : ∀ c, t3.head? = some c → stopsAtoi c = true) : atoi (w ++ t3) = atoi w := by
  have hdig : ∀ c, t3.head? = some c → isdigit c = false := fun c hc =>
    ((stopsAtoi_iff c).mp (ht3 c hc)).2.1
  induction w with
  | nil =>
    cases t3 with
    | nil => rfl
    | cons c cs =>
      rw [List.nil_append, atoi_stop c cs (ht3 c rfl)]
      decide
  | cons x xs ih =>
    by_cases hx : isspace x = true
    · rw [List.cons_append, atoi_cons_space x _ hx, atoi_cons_space x _ hx, ih]
    · simp only [Bool.not_eq_true] at hx
      have h1 := atoiDigits_same xs t3 0 hdig
      have h2 := atoiDigits_same (x :: xs) t3 0 hdig
      rw [List.cons_append] at h2
      have hd1 : (x :: (xs ++ t3)).dropWhile isspace = x :: (xs ++ t3) := by
        simp [List.dropWhile, hx]
      have hd2 : (x :: xs).dropWhile isspace = x :: xs := by
        simp [List.dropWhile, hx]
      unfold atoi
      rw [List.cons_append]
      simp only [hd1, hd2, List.head?_cons, List.tail_cons, h1, h2]

theorem decFold_lt (ds : List Nat) (a : Nat) (hdig : ∀ c ∈ ds, isdigit c = true) :
    ds.foldl (fun a c => a * 10 + (c - 48)) a < (a + 1) * 10 ^ ds.length := by
  induction ds generalizing a with
  | nil => simp
  | cons c cs ih =>
    have hc := hdig c (by simp)
    simp only [isdigit, Bool.and_eq_true, decide_eq_true_eq] at hc
    have hcs : ∀ x ∈ cs, isdigit x = true := fun x hx => hdig x (by simp [hx])
    have h1 := ih (a * 10 + (c - 48)) hcs
    have h2 : (a * 10 + (c - 48) + 1) * 10 ^ cs.length ≤ ((a + 1) * 10) * 10 ^ cs.length :=
      Nat.mul_le_mul_right _ (by omega)
    simp only [List.foldl_cons, List.length_cons, pow_succ]
    calc _ < (a * 10 + (c - 48) + 1) * 10 ^ cs.length := h1
      _ ≤ ((a + 1) * 10) * 10 ^ cs.length := h2
      _ = (a + 1) * (10 ^ cs.length * 10) := by ring

theorem decVal_lt (ds : List Nat) (hdig : ∀ c ∈ ds, isdigit c = true) :
    decVal ds < 10 ^ ds.length := by
  have := decFold_lt ds 0 hdig
  simpa [decVal] using this

theorem atoi_leading_digits (c : Nat) (cs : List Nat) (hc : isdigit c = true)
    (hlen : (c :: cs).length ≤ 4) :
    atoi (c :: cs) = (decVal ((c :: cs).takeWhile isdigit) : Int) := by
  have hsplit := List.takeWhile_append_dropWhile isdigit (c :: cs)
  have htw : (c :: cs).takeWhile isdigit = c :: cs.takeWhile isdigit := by
    simp [List.takeWhile, hc]
  have hdig : ∀ x ∈ c :: cs.takeWhile isdigit, isdigit x = true := by
    intro x hx
    rw [← htw] at hx
    exact List.mem_takeWhile_imp hx
  have hrest : ∀ x, ((c :: cs).dropWhile isdigit).head? = some x → isdigit x = false := by
    intro x hx
    have := List.head?_dropWhile_not isdigit (c :: cs)
    rw [hx] at this
    simpa using this
  have h := atoi_digits c (cs.takeWhile isdigit) _ hdig hrest
  rw [← htw, hsplit] at h
  rw [h, htw]
  have hl : (c :: cs.takeWhile isdigit).length ≤ 4 := by
    have := (List.takeWhile_sublist (l := cs) isdigit).length_le
    simp only [List.length_cons] at hlen ⊢
    omega
  have hlt := decVal_lt _ hdig
  have hpow : 10 ^ (c :: cs.takeWhile isdigit).length ≤ 10 ^ 4 :=
    Nat.pow_le_pow_right (by norm_num) hl
  exact toInt16_small _ (by omega)

/-! ## C5: three-digit duty values above 254 -/

/-- C5, evaluated at the line `PWM=999` received in the power-on state, with a NUL in
`TempString[3]`: `atoi` gives 999, the assignment to the 8-bit `DutyCycle` keeps
`999 mod 256 = 231`, the clamp of `SetPWM` does not apply, and the compare register
becomes `floor(231 * 1999 / 255) = 1810`; the claim expects duty 254 and compare
`floor(254 * 1999 / 255) = 1991`. -/
theorem PWM_999_not_clamped :
    pwmRaw (lineBuf (str "PWM=999")) [0] = 999
      ∧ (Uart_Check_String { Timer1_Init with UART_Rx := lineBuf (str "PWM=999") }
          [0] []).DutyCycle = 231
      ∧ (Uart_Check_String { Timer1_Init with UART_Rx := lineBuf (str "PWM=999") }
          [0] []).OCR1B = 1810
      ∧ 254 * Timer1_Init.OCR1A / 255 = 1991 := by
  decide

/-! ## C6: the `FREQ=` command -/

/-- C6 fails at the line `FREQ=99999` (NUL in `TempString[5]`): the 16-bit `Freq` holds
`99999 mod 65536 = 34463`, the period register becomes `floor(2000000 / 34463) - 1 = 57`
and not `floor(2000000 / 99999) - 1 = 19`, and the reported frequency is 34463. -/
theorem FREQ_99999_counterexample :
    (Uart_Check_String { Timer1_Init with UART_Rx := lineBuf (str "FREQ=99999") }
        [] [0]).OCR1A = 57
      ∧ (Uart_Check_String { Timer1_Init with UART_Rx := lineBuf (str "FREQ=99999") }
          [] [0]).OCR1A ≠ 2000000 / max 99999 40 - 1
      ∧ (Uart_Check_String { Timer1_Init with UART_Rx := lineBuf (str "FREQ=99999") }
          [] [0]).Sent
          = str "PWM set to 49%\n" ++ str "Match A\t57\nMatch B\t28\n"
            ++ str "Frequency set to 34463 Hz\n" := by
  decide

/-- C6, amended: for every line consisting of `FREQ=` followed by one to five decimal
digits denoting a number `n ≤ 65535` (for five digits: with no digit left in
`TempString[5]`), `Uart_Check_String` sets the period register to
`floor(2000000 / max(n,40)) - 1` and the transmitted text ends with
`Frequency set to {max(n,40)} Hz`. -/
theorem FREQ_line_sets_period (s : State) (ds t3 t5 : List Nat)
    (hlen : 1 ≤ ds.length ∧ ds.length ≤ 5)
    (hdig : ∀ c ∈ ds, isdigit c = true)
    (hn : decVal ds ≤ 65535)
    (ht5 : ds.length = 5 → ∀ c, t5.head? = some c → isdigit c = false) :
    (Uart_Check_String { s with UART_Rx := lineBuf (str "FREQ=" ++ ds) } t3 t5).OCR1A
        = 2000000 / max (decVal ds) 40 - 1
      ∧ (Uart_Check_String { s with UART_Rx := lineBuf (str "FREQ=" ++ ds) } t3 t5).Sent
        = s.Sent ++ msgPWM (min s.DutyCycle 254 * 100 / 255)
            ++ msgMatch (2000000 / max (decVal ds) 40 - 1)
                (compareOf s.DutyCycle (2000000 / max (decVal ds) 40 - 1))
            ++ msgFreq (max (decVal ds) 40) := by
  have hraw := freqRaw_line ds t5 hlen hdig ht5
  have hf : (freqRaw (lineBuf (str "FREQ=" ++ ds)) t5 % 65536).toNat = decVal ds := by
    rw [hraw, toInt16_mod_65536]
    exact Nat.mod_eq_of_lt (by omega)
  rw [Uart_Check_String_FREQ _ t3 t5 (lineBuf_starts _ _)]
  simp only [hf]
  rw [SetFreq_OCR1A, SetFreq_Sent, periodOf_eq _ (by omega), clampFreq_eq]
  exact ⟨rfl, rfl⟩

/-- Witness of the amended C6: the line `FREQ=40436` of the file header, received in
the power-on state with a NUL in `TempString[5]`. -/
theorem FREQ_line_sets_period_witness :
    (Uart_Check_String { Timer1_Init with UART_Rx := lineBuf (str "FREQ=" ++ str "40436") }
        [] [0]).OCR1A = 2000000 / max (decVal (str "40436")) 40 - 1
      ∧ (Uart_Check_String { Timer1_Init with UART_Rx := lineBuf (str "FREQ=" ++ str "40436") }
        [] [0]).Sent
        = Timer1_Init.Sent ++ msgPWM (min Timer1_Init.DutyCycle 254 * 100 / 255)
            ++ msgMatch (2000000 / max (decVal (str "40436")) 40 - 1)
                (compareOf Timer1_Init.DutyCycle (2000000 / max (decVal (str "40436")) 40 - 1))
            ++ msgFreq (max (decVal (str "40436")) 40) :=
  FREQ_line_sets_period Timer1_Init (str "40436") [] [0] (by decide) (by decide) (by decide)
    (fun _ c hc => by
      simp only [List.head?_cons, Option.some.injEq] at hc
      subst hc
      decide)

/-! ## C7: the messages of `SetFreq` -/

theorem freqRaw_2000 (t5 : List Nat) : freqRaw (lineBuf (str "FREQ=2000")) t5 = 2000 := by
  have hl : ¬ (str "2000").length = 5 := by decide
  have h := freqRaw_line (str "2000") t5 (by decide) (by decide) (fun h5 => absurd h5 hl)
  have e : str "FREQ=" ++ str "2000" = str "FREQ=2000" := by decide
  rw [e] at h
  rw [h]
  decide

/-- C7: for every state and every 16-bit frequency input `f`, `SetFreq` transmits, after
what was sent before, exactly the three texts `PWM set to {floor(duty*100/255)}%`,
`Match A {new period} / Match B {rescaled compare}` and `Frequency set to {max(f,40)} Hz`,
in this order, where `duty` is the stored duty cycle after the call (the stored value
before the call, limited to 254).  From the power-on state the line `FREQ=2000` yields
period 999, compare 497 and the three texts of the scenario. -/
theorem SetFreq_messages :
    (∀ (s : State) (f : Nat), f < 65536 →
        (SetFreq s f).Sent
            = s.Sent ++ msgPWM ((SetFreq s f).DutyCycle * 100 / 255)
                ++ msgMatch (SetFreq s f).OCR1A (SetFreq s f).OCR1B
                ++ msgFreq (max f 40)
          ∧ (SetFreq s f).DutyCycle = min s.DutyCycle 254
          ∧ (SetFreq s f).OCR1B = compareOf s.DutyCycle (SetFreq s f).OCR1A)
      ∧ (∀ (t3 t5 : List Nat),
          (Uart_Check_String { Timer1_Init with UART_Rx := lineBuf (str "FREQ=2000") }
              t3 t5).OCR1A = 999
            ∧ (Uart_Check_String { Timer1_Init with UART_Rx := lineBuf (str "FREQ=2000") }
              t3 t5).OCR1B = 497
            ∧ (Uart_Check_String { Timer1_Init with UART_Rx := lineBuf (str "FREQ=2000") }
              t3 t5).Sent
              = str "PWM set to 49%\n" ++ str "Match A\t999\nMatch B\t497\n"
                  ++ str "Frequency set to 2000 Hz\n") := by
  constructor
  · intro s f _
    rw [SetFreq_Sent, SetFreq_DutyCycle, SetFreq_OCR1A, SetFreq_OCR1B, clampFreq_eq]
    exact ⟨rfl, rfl, rfl⟩
  · intro t3 t5
    have hp : str "FREQ=" <+: lineBuf (str "FREQ=2000") := by decide
    rw [Uart_Check_String_FREQ _ t3 t5 hp]
    simp only [freqRaw_2000]
    decide

/-- Witness of C7: `SetFreq 2000` in the power-on state sends the three texts of the
scenario. -/
theorem SetFreq_messages_witness :
    (SetFreq Timer1_Init 2000).Sent
      = str "PWM set to 49%\n" ++ str "Match A\t999\nMatch B\t497\n"
          ++ str "Frequency set to 2000 Hz\n" :=
  (SetFreq_messages.1 Timer1_Init 2000 (by decide)).1.trans (by decide)
/-! ## C10: the raw duty value of a `PWM=` line -/

/-- C10 fails at the lines `PWM= 7` and `PWM=-5` (NUL in `TempString[3]`): the first
of the three characters is not a digit, yet `atoi` skips the blank and accepts the sign;
the raw values are 7 and -5, not 0, and -5 is stored as the duty value 251. -/
theorem pwmRaw_blank_sign_counterexample :
    isdigit 32 = false ∧ isdigit 45 = false
      ∧ pwmRaw (lineBuf (str "PWM= 7")) [0] = 7
      ∧ pwmRaw (lineBuf (str "PWM= 7")) [0] ≠ 0
      ∧ pwmRaw (lineBuf (str "PWM=-5")) [0] = -5
      ∧ pwmRaw (lineBuf (str "PWM=-5")) [0] ≠ 0
      ∧ (Uart_Check_String { Timer1_Init with UART_Rx := lineBuf (str "PWM=-5") }
          [0] []).DutyCycle = 251 := by
  decide

/-- C10, amended: for every line beginning with `PWM=`, when the byte found in
`TempString[3]` stops `atoi` (as a NUL does), the value stored by `Uart_Check_String`
is the parsed raw value reduced to 8 bits, and the raw value is `atoi` of the next three
characters alone: leading white space is skipped and one sign is accepted; when the
first of the three is a digit the value is the decimal value of their longest leading
run of digits; when the first is neither digit, white space nor sign the value is 0.
So `PWM=12x` gives 12, `PWM=1234` gives 123, `PWM=x` gives 0, `PWM=-5` gives -5 and
`PWM= 7` gives 7. -/
theorem pwmRaw_three_chars (s : State) (t3 t5 : List Nat)
    (hp : str "PWM=" <+: s.UART_Rx)
    (ht3 : ∀ c, t3.head? = some c → stopsAtoi c = true) :
    Uart_Check_String s t3 t5
        = SetPWM { s with DutyCycle := (pwmRaw s.UART_Rx t3 % 256).toNat }
      ∧ pwmRaw s.UART_Rx t3 = atoi (strncpy (s.UART_Rx.drop 4) 3)
      ∧ (∀ c, (strncpy (s.UART_Rx.drop 4) 3).head? = some c → isdigit c = true →
          pwmRaw s.UART_Rx t3
            = (decVal ((strncpy (s.UART_Rx.drop 4) 3).takeWhile isdigit) : Int))
      ∧ (∀ c, (strncpy (s.UART_Rx.drop 4) 3).head? = some c → stopsAtoi c = true →
          pwmRaw s.UART_Rx t3 = 0)
      ∧ pwmRaw (lineBuf (str "PWM=12x")) t3 = 12
      ∧ pwmRaw (lineBuf (str "PWM=1234")) t3 = 123
      ∧ pwmRaw (lineBuf (str "PWM=x")) t3 = 0
      ∧ pwmRaw (lineBuf (str "PWM=-5")) t3 = -5
      ∧ pwmRaw (lineBuf (str "PWM= 7")) t3 = 7 := by
  have hwin : ∀ rx, pwmRaw rx t3 = atoi (strncpy (rx.drop 4) 3) := fun rx =>
    atoi_append_stop _ t3 ht3
  refine ⟨Uart_Check_String_PWM s t3 t5 hp, hwin _, ?_, ?_, ?_, ?_, ?_, ?_, ?_⟩
  · intro c hc hd
    rw [hwin]
    have hlen := strncpy_length (s.UART_Rx.drop 4) 3
    cases hw : strncpy (s.UART_Rx.drop 4) 3 with
    | nil => rw [hw] at hc; simp at hc
    | cons x xs =>
      rw [hw] at hc hlen
      simp only [List.head?_cons, Option.some.injEq] at hc
      subst hc
      exact atoi_leading_digits x xs hd (by omega)
  · intro c hc hstop
    rw [hwin]
    cases hw : strncpy (s.UART_Rx.drop 4) 3 with
    | nil => rw [hw] at hc; simp at hc
    | cons x xs =>
      rw [hw] at hc
      simp only [List.head?_cons, Option.some.injEq] at hc
      subst hc
      exact atoi_stop x xs hstop
  · rw [hwin]; decide
  · rw [hwin]; decide
  · rw [hwin]; decide
  · rw [hwin]; decide
  · rw [hwin]; decide

/-- Witness of the amended C10: the line `PWM=12x` received in the power-on state, with a
NUL in `TempString[3]`. -/
theorem pwmRaw_three_chars_witness :
    pwmRaw (lineBuf (str "PWM=12x")) [0] = atoi (strncpy ((lineBuf (str "PWM=12x")).drop 4) 3)
      ∧ pwmRaw (lineBuf (str "PWM=12x")) [0] = 12 :=
  have h := pwmRaw_three_chars { Timer1_Init with UART_Rx := lineBuf (str "PWM=12x") } [0] []
    (by decide)
    (fun c hc => by
      simp only [List.head?_cons, Option.some.injEq] at hc
      subst hc
      decide)
  ⟨h.2.1, h.2.2.2.2.1⟩

/-! ## The collection loop of `UART0RX` -/

theorem pollBody_recv (l : RxLocals) (s : State) (hf : s.Flag_2 = 1) (hc : l.Counter ≤ 49)
    (hlen : s.UART_Rx.length = 50) :
    pollBody l s = .ok
      ({ Rx_Complete :=
            if s.UART_RX_Data = 13 ∨ s.UART_RX_Data = 10 ∨ l.Counter + 1 ≥ Rx_Buf_Len then 1
            else l.Rx_Complete
         Counter := l.Counter + 1
         Time_Out := 1 },
       { s with Flag_2 := 0, UART_Rx := s.UART_Rx.set l.Counter s.UART_RX_Data }) := by
  have h1 : l.Counter < Rx_Buf_Len := by unfold Rx_Buf_Len; omega
  have h2 : (l.Counter + 1) % 256 = l.Counter + 1 := by omega
  have h3 : (s.UART_Rx.set l.Counter s.UART_RX_Data).getD l.Counter 0 = s.UART_RX_Data := by
    rw [List.getD_eq_getElem?_getD, List.getElem?_set_self (by omega)]
    rfl
  have h4 : 1 ≤ l.Counter + 1 ∧ l.Counter + 1 - 1 < Rx_Buf_Len := ⟨by omega, by simpa using h1⟩
  have h5 : ¬ (0 > 2000) := by omega
  unfold pollBody
  simp only [hf, h1, h2, ↓reduceIte, h4, and_self]
  simp only [Nat.add_sub_cancel, h3]
  by_cases hd : s.UART_RX_Data = 13 ∨ s.UART_RX_Data = 10 ∨ l.Counter + 1 ≥ Rx_Buf_Len
  · simp only [hd, ↓reduceIte, h5]
  · simp only [hd, ↓reduceIte, h5]

theorem pollBody_idle (l : RxLocals) (s : State) (hf : s.Flag_2 ≠ 1) (hc1 : 1 ≤ l.Counter)
    (hc : l.Counter ≤ 49) (ht : l.Time_Out ≤ 2001)
    (hlast : s.UART_Rx.getD (l.Counter - 1) 0 ≠ 13 ∧ s.UART_Rx.getD (l.Counter - 1) 0 ≠ 10) :
    pollBody l s = .ok
      ({ Rx_Complete := if l.Time_Out > 2000 then 1 else l.Rx_Complete
         Counter := l.Counter
         Time_Out := l.Time_Out + 1 }, s) := by
  have h1 : 1 ≤ l.Counter ∧ l.Counter - 1 < Rx_Buf_Len := ⟨hc1, by unfold Rx_Buf_Len; omega⟩
  have h2 : (l.Time_Out + 1) % 65536 = l.Time_Out + 1 := by omega
  have h3 : ¬ (s.UART_Rx.getD (l.Counter - 1) 0 = 13 ∨ s.UART_Rx.getD (l.Counter - 1) 0 = 10
      ∨ l.Counter ≥ Rx_Buf_Len) := by
    unfold Rx_Buf_Len
    rintro (h | h | h)
    · exact hlast.1 h
    · exact hlast.2 h
    · omega
  unfold pollBody
  simp only [hf, ↓reduceIte, h1, and_self, h3]
  by_cases hto : l.Time_Out > 2000
  · simp only [hto, ↓reduceIte, h2]
  · simp only [hto, ↓reduceIte, h2]

theorem rxLoop_done (sched : Nat → Option Nat) (fuel i : Nat) (l : RxLocals) (s : State)
    (h : l.Rx_Complete ≠ 0) : rxLoop sched (fuel + 1) i l s = .ok (l, s) := by
  simp only [rxLoop, h, ne_eq, not_false_eq_true, ↓reduceIte]

theorem rxLoop_step (sched : Nat → Option Nat) (fuel i : Nat) (l : RxLocals) (s : State)
    (h : l.Rx_Complete = 0) :
    rxLoop sched (fuel + 1) i l s =
      match pollBody l (match sched i with
          | some b => USART0_RX_vect s b
          | none => s) with
      | .error e => .error e
      | .ok (l, s) => rxLoop sched fuel (i + 1) l s := by
  simp only [rxLoop, h, ne_eq, not_true_eq_false, ↓reduceIte]

theorem rxLoop_spec (sched : Nat → Option Nat) :
    ∀ (fuel i : Nat) (l : RxLocals) (s : State), RxInv l s →
      (50 - l.Counter) * 2002 + (2001 - l.Time_Out) + 2 ≤ fuel →
      ∃ l' s', rxLoop sched fuel i l s = .ok (l', s') ∧ RxPost s l' s' := by
  intro fuel
  induction fuel with
  | zero => intro i l s _ hfuel; omega
  | succ fuel ih =>
    intro i l s hinv hfuel
    obtain ⟨hrc, hc, ht, hlen, hpend, hlast⟩ := hinv
    rw [rxLoop_step sched fuel i l s hrc]
    generalize hs1 : (match sched i with
      | some b => USART0_RX_vect s b
      | none => s) = s1
    have hs1' : (s1.Flag_2 = 1 ∨ s1 = s) ∧ s1.UART_Rx = s.UART_Rx ∧ s1.OCR1A = s.OCR1A
        ∧ s1.OCR1B = s.OCR1B ∧ s1.DutyCycle = s.DutyCycle ∧ s1.UART_Tx = s.UART_Tx
        ∧ s1.Sent = s.Sent := by
      cases hsch : sched i with
      | none =>
        rw [hsch] at hs1
        subst hs1
        exact ⟨Or.inr rfl, rfl, rfl, rfl, rfl, rfl, rfl⟩
      | some b =>
        rw [hsch] at hs1
        subst hs1
        exact ⟨Or.inl rfl, rfl, rfl, rfl, rfl, rfl, rfl⟩
    obtain ⟨hfs, hrx, hA, hB, hD, hTx, hSent⟩ := hs1'
    have hlen1 : s1.UART_Rx.length = 50 := by rw [hrx]; exact hlen
    by_cases hf : s1.Flag_2 = 1
    · -- a byte is stored
      rw [pollBody_recv l s1 hf hc hlen1]
      have hget : (s1.UART_Rx.set l.Counter s1.UART_RX_Data).getD l.Counter 0
          = s1.UART_RX_Data := by
        rw [List.getD_eq_getElem?_getD, List.getElem?_set_self (by omega)]
        rfl
      by_cases hd : s1.UART_RX_Data = 13 ∨ s1.UART_RX_Data = 10 ∨ l.Counter + 1 ≥ Rx_Buf_Len
      · simp only [hd, ↓reduceIte]
        obtain ⟨k, rfl⟩ : ∃ k, fuel = k + 1 := ⟨fuel - 1, by omega⟩
        rw [rxLoop_done _ _ _ _ _ (by simp)]
        refine ⟨_, _, rfl, rfl, by simp, by simp; omega, by simp [hlen1], Or.inl ⟨?_, rfl⟩,
          hA, hB, hD, hTx, hSent⟩
        unfold endedOnChar
        simp only [Nat.add_sub_cancel, hget]
        exact hd
      · simp only [hd, ↓reduceIte, hrc]
        have hd' : s1.UART_RX_Data ≠ 13 ∧ s1.UART_RX_Data ≠ 10 ∧ l.Counter + 1 < 50 := by
          unfold Rx_Buf_Len at hd
          refine ⟨fun h => hd (Or.inl h), fun h => hd (Or.inr (Or.inl h)), ?_⟩
          by_contra h
          exact hd (Or.inr (Or.inr (by omega)))
        obtain ⟨l', s', hrun, hpost⟩ := ih (i + 1)
          { Rx_Complete := 0, Counter := l.Counter + 1, Time_Out := 1 }
          { s1 with Flag_2 := 0, UART_Rx := s1.UART_Rx.set l.Counter s1.UART_RX_Data }
          ⟨rfl, by simp; omega, by simp, by simp [hlen1], by simp,
            fun _ => by simp only [Nat.add_sub_cancel, hget]; exact ⟨hd'.1, hd'.2.1⟩⟩
          (by simp only; omega)
        refine ⟨l', s', hrun, ?_⟩
        obtain ⟨p1, p2, p3, p4, p5, p6, p7, p8, p9, p10⟩ := hpost
        exact ⟨p1, p2, p3, p4, p5, p6.trans hA, p7.trans hB, p8.trans hD, p9.trans hTx,
          p10.trans hSent⟩
    · -- no byte is pending
      have hs : s1 = s := by
        rcases hfs with h | h
        · exact absurd h hf
        · exact h
      subst hs
      have hc1 : 1 ≤ l.Counter := by
        by_contra h
        exact hf (hpend (by omega))
      rw [pollBody_idle l s1 hf hc1 hc ht (hlast hc1)]
      by_cases hto : l.Time_Out > 2000
      · simp only [hto, ↓reduceIte]
        obtain ⟨k, rfl⟩ : ∃ k, fuel = k + 1 := ⟨fuel - 1, by omega⟩
        rw [rxLoop_done _ _ _ _ _ (by simp)]
        refine ⟨_, _, rfl, rfl, hc1, by simp; omega, hlen, Or.inr ⟨?_, by simp; omega⟩,
          rfl, rfl, rfl, rfl, rfl⟩
        unfold endedOnChar Rx_Buf_Len
        have := hlast hc1
        simp only [not_or]
        exact ⟨this.1, this.2, by omega⟩
      · simp only [hto, ↓reduceIte, hrc]
        exact ih (i + 1) { Rx_Complete := 0, Counter := l.Counter, Time_Out := l.Time_Out + 1 }
          s1 ⟨rfl, hc, by simp; omega, hlen, fun h => by simp at h; omega, hlast⟩
          (by simp only; omega)

theorem collect_spec (sched : Nat → Option Nat) (s : State) (hf : s.Flag_2 = 1) :
    ∃ l s1, collect sched s = .ok (l, s1)
      ∧ RxPost { s with UART_Rx := List.replicate Rx_Buf_Len 0 } l s1 := by
  unfold collect
  apply rxLoop_spec
  · exact ⟨rfl, by simp, by simp, by simp [Rx_Buf_Len], fun _ => hf, fun h => by simp at h⟩
  · simp only [rxFuel]
    omega

theorem cstr_append_of_mem (mem adj : List Nat) (h : 0 ∈ mem) :
    cstr (mem ++ adj) = cstr mem := by
  induction mem with
  | nil => simp at h
  | cons c cs ih =>
    by_cases hc : c = 0
    · simp [cstr, hc]
    · have hcs : 0 ∈ cs := by
        rcases List.mem_cons.mp h with h0 | h0
        · exact absurd h0.symm hc
        · exact h0
      simp [cstr, hc, ih hcs]

theorem cstr_append_of_ne (mem adj : List Nat) (h : ∀ c ∈ mem, c ≠ 0) :
    cstr (mem ++ adj) = mem ++ cstr adj := by
  induction mem with
  | nil => simp
  | cons c cs ih =>
    have hc : c ≠ 0 := h c (by simp)
    have hcs : ∀ x ∈ cs, x ≠ 0 := fun x hx => h x (by simp [hx])
    simp [cstr, hc, ih hcs]

theorem UART0RX_eq (sched : Nat → Option Nat) (adj t3 t5 : List Nat) (s : State) :
    UART0RX sched adj t3 t5 s =
      match collect sched s with
      | .error e => .error e
      | .ok (l, s1) =>
        if l.Rx_Complete ≠ 0 ∧ l.Time_Out < 2 then
          .ok (putsUSART (putsUSART (afterCheck s1 t3 t5) ((afterCheck s1 t3 t5).UART_Rx ++ adj))
            (str "\r\n"))
        else .ok (afterCheck s1 t3 t5) := rfl

theorem puts_echo_Sent (s : State) (mem : List Nat) :
    (putsUSART (putsUSART s mem) (str "\r\n")).Sent = s.Sent ++ cstr mem ++ str "\r\n" := by
  have hcr : cstr (str "\r\n") = str "\r\n" := by decide
  rw [putsUSART_eq, putsUSART_eq, hcr]

/-- The echo rule of `UART0RX`, entered with a pending byte, for every byte-arrival
schedule: the collection loop ends, either on a stored character (carriage return,
newline, or the 50th byte) or with the time-out count exceeded and no such character.
In the first case the C string found at `UART_Rx` is sent after the output of the command
processing, then `\r\n`; when the cleaned buffer holds a NUL this string is the buffer
content up to its first NUL.  In the second case nothing is sent after the output of the
command processing. -/
theorem UART0RX_echo_rule (sched : Nat → Option Nat) (adj t3 t5 : List Nat) (s : State)
    (hf : s.Flag_2 = 1) :
    ∃ l s1 s2, collect sched s = .ok (l, s1) ∧ UART0RX sched adj t3 t5 s = .ok s2
      ∧ ((endedOnChar l s1
            ∧ s2.Sent = (afterCheck s1 t3 t5).Sent
                ++ cstr ((afterCheck s1 t3 t5).UART_Rx ++ adj) ++ str "\r\n"
            ∧ (0 ∈ (afterCheck s1 t3 t5).UART_Rx →
                s2.Sent = (afterCheck s1 t3 t5).Sent
                  ++ cstr (afterCheck s1 t3 t5).UART_Rx ++ str "\r\n"))
          ∨ (¬ endedOnChar l s1 ∧ l.Time_Out = 2002 ∧ s2 = afterCheck s1 t3 t5)) := by
  obtain ⟨l, s1, hcol, hrc, -, -, -, hend, -⟩ := collect_spec sched s hf
  rcases hend with ⟨he, hto⟩ | ⟨he, hto⟩
  · have hcond : l.Rx_Complete ≠ 0 ∧ l.Time_Out < 2 := ⟨by omega, by omega⟩
    refine ⟨l, s1, _, hcol, ?_, Or.inl ⟨he, puts_echo_Sent _ _, fun h0 => ?_⟩⟩
    · rw [UART0RX_eq, hcol]
      dsimp only
      rw [if_pos hcond]
    · rw [puts_echo_Sent, cstr_append_of_mem _ adj h0]
  · have hcond : ¬ (l.Rx_Complete ≠ 0 ∧ l.Time_Out < 2) := by
      rintro ⟨-, h⟩
      omega
    refine ⟨l, s1, _, hcol, ?_, Or.inr ⟨he, hto, rfl⟩⟩
    rw [UART0RX_eq, hcol]
    dsimp only
    rw [if_neg hcond]

/-! ## Single steps and idle runs of the collection loop -/

theorem rxLoop_recv_pending (sched : Nat → Option Nat) (fuel i : Nat) (l : RxLocals)
    (s : State) (hrc : l.Rx_Complete = 0) (hc : l.Counter ≤ 49)
    (hlen : s.UART_Rx.length = 50) (hsch : sched i = none) (hf : s.Flag_2 = 1) :
    rxLoop sched (fuel + 1) i l s =
      rxLoop sched fuel (i + 1)
        { Rx_Complete :=
            if s.UART_RX_Data = 13 ∨ s.UART_RX_Data = 10 ∨ l.Counter + 1 ≥ Rx_Buf_Len then 1
            else 0
          Counter := l.Counter + 1
          Time_Out := 1 }
        { s with Flag_2 := 0, UART_Rx := s.UART_Rx.set l.Counter s.UART_RX_Data } := by
  rw [rxLoop_step sched fuel i l s hrc, hsch]
  dsimp only
  rw [pollBody_recv l s hf hc hlen, hrc]

theorem rxLoop_recv_arrival (sched : Nat → Option Nat) (fuel i b : Nat) (l : RxLocals)
    (s : State) (hrc : l.Rx_Complete = 0) (hc : l.Counter ≤ 49)
    (hlen : s.UART_Rx.length = 50) (hsch : sched i = some b) :
    rxLoop sched (fuel + 1) i l s =
      rxLoop sched fuel (i + 1)
        { Rx_Complete := if b = 13 ∨ b = 10 ∨ l.Counter + 1 ≥ Rx_Buf_Len then 1 else 0
          Counter := l.Counter + 1
          Time_Out := 1 }
        { s with Flag_2 := 0, UART_RX_Data := b, UART_Rx := s.UART_Rx.set l.Counter b } := by
  rw [rxLoop_step sched fuel i l s hrc, hsch]
  dsimp only
  rw [pollBody_recv l (USART0_RX_vect s b) rfl hc hlen, hrc]
  rfl

theorem rxLoop_idle (sched : Nat → Option Nat) :
    ∀ (n fuel i : Nat) (l : RxLocals) (s : State), l.Rx_Complete = 0 → 1 ≤ l.Counter →
      l.Counter ≤ 49 → s.Flag_2 ≠ 1 →
      (s.UART_Rx.getD (l.Counter - 1) 0 ≠ 13 ∧ s.UART_Rx.getD (l.Counter - 1) 0 ≠ 10) →
      (∀ j, i ≤ j → j < i + n → sched j = none) → l.Time_Out + n ≤ 2001 →
      rxLoop sched (fuel + n) i l s =
        rxLoop sched fuel (i + n)
          { Rx_Complete := 0, Counter := l.Counter, Time_Out := l.Time_Out + n } s := by
  intro n
  induction n with
  | zero =>
    intro fuel i l s hrc _ _ _ _ _ _
    simp only [Nat.add_zero]
    rw [← hrc]
  | succ n ih =>
    intro fuel i l s hrc hc1 hc hf hlast hsch ht
    have hto : ¬ l.Time_Out > 2000 := by omega
    rw [show fuel + (n + 1) = (fuel + n) + 1 by omega, rxLoop_step sched _ i l s hrc,
      hsch i le_rfl (by omega)]
    dsimp only
    rw [pollBody_idle l s hf hc1 hc (by omega) hlast]
    dsimp only
    rw [if_neg hto, hrc, ih fuel (i + 1)
      { Rx_Complete := 0, Counter := l.Counter, Time_Out := l.Time_Out + 1 } s rfl hc1 hc hf
      hlast (fun j h1 h2 => hsch j (by omega) (by omega)) (by simp only; omega)]
    have e1 : i + 1 + n = i + (n + 1) := by omega
    have e2 : l.Time_Out + 1 + n = l.Time_Out + (n + 1) := by omega
    dsimp only
    rw [e1, e2]

theorem replicate_set (k a b c : Nat) (rest : List Nat) :
    (List.replicate k a ++ b :: rest).set k c = List.replicate k a ++ c :: rest := by
  induction k with
  | zero => rfl
  | succ k ih => simp [List.replicate_succ, ih]

theorem bufA_set (k : Nat) (hk : k ≤ 49) : (bufA k).set k 65 = bufA (k + 1) := by
  unfold bufA Rx_Buf_Len
  have h1 : 50 - k = (50 - (k + 1)) + 1 := by omega
  rw [h1, List.replicate_succ, replicate_set, List.replicate_succ' (n := k),
    List.append_assoc]
  rfl

theorem bufA_length (k : Nat) (hk : k ≤ 50) : (bufA k).length = 50 := by
  unfold bufA Rx_Buf_Len
  simp
  omega

theorem bufA_last (k : Nat) (hk1 : 1 ≤ k) : (bufA k).getD (k - 1) 0 = 65 := by
  unfold bufA
  have hlt : k - 1 < k := by omega
  rw [List.getD_eq_getElem?_getD, List.getElem?_append_left (by simpa using hlt),
    List.getElem?_replicate, if_pos hlt]
  rfl

theorem fiftyAs_idle (k j : Nat) (h1 : 16 * k + 1 ≤ j) (h2 : j < 16 * k + 1 + 15) :
    fiftyAs j = none := by
  unfold fiftyAs
  rw [if_neg (by omega)]

theorem fiftyAs_byte (k : Nat) (hk1 : 1 ≤ k) (hk : k ≤ 49) : fiftyAs (16 * k) = some 65 := by
  unfold fiftyAs
  rw [if_pos (by omega)]

theorem rxLoop_fiftyAs :
    ∀ (m k fuel : Nat), k + m = 49 → 16 * m + 1 ≤ fuel →
      rxLoop fiftyAs fuel (16 * k + 1)
          { Rx_Complete := if k + 1 ≥ 50 then 1 else 0, Counter := k + 1, Time_Out := 1 }
          (stateA (k + 1))
        = .ok ({ Rx_Complete := 1, Counter := 50, Time_Out := 1 }, stateA 50) := by
  intro m
  induction m with
  | zero =>
    intro k fuel hk hfuel
    obtain ⟨f, rfl⟩ : ∃ f, fuel = f + 1 := ⟨fuel - 1, by omega⟩
    have h49 : k = 49 := by omega
    subst h49
    exact rxLoop_done fiftyAs f _ _ _ (by decide)
  | succ m ih =>
    intro k fuel hk hfuel
    obtain ⟨f, rfl⟩ : ∃ f, fuel = f + 1 + 15 := ⟨fuel - 16, by omega⟩
    have hrc : (if k + 1 ≥ 50 then 1 else 0) = 0 := if_neg (by omega)
    rw [hrc]
    rw [rxLoop_idle fiftyAs 15 (f + 1) (16 * k + 1) _ (stateA (k + 1)) rfl (by simp)
      (by simp only; omega) (by show (0 : Nat) ≠ 1; decide)
      (by
        have := bufA_last (k + 1) (by omega)
        show (bufA (k + 1)).getD (k + 1 - 1) 0 ≠ 13 ∧ (bufA (k + 1)).getD (k + 1 - 1) 0 ≠ 10
        rw [this]
        decide)
      (fun j h1 h2 => fiftyAs_idle k j h1 h2) (by simp)]
    have hi : 16 * k + 1 + 15 = 16 * (k + 1) := by omega
    rw [hi, rxLoop_recv_arrival fiftyAs f (16 * (k + 1)) 65 _ (stateA (k + 1)) rfl
      (by simp only; omega) (bufA_length (k + 1) (by omega))
      (fiftyAs_byte (k + 1) (by omega) (by omega))]
    have hst : ({ stateA (k + 1) with
        Flag_2 := 0, UART_RX_Data := 65, UART_Rx := (stateA (k + 1)).UART_Rx.set (k + 1) 65 }
          : State) = stateA (k + 1 + 1) := by
      show ({ stateA (k + 1) with
        Flag_2 := 0, UART_RX_Data := 65, UART_Rx := (bufA (k + 1)).set (k + 1) 65 } : State) = _
      rw [bufA_set (k + 1) (by omega)]
      rfl
    dsimp only
    rw [hst]
    have hif : (if 65 = 13 ∨ 65 = 10 ∨ k + 1 + 1 ≥ Rx_Buf_Len then 1 else 0)
        = (if k + 1 + 1 ≥ 50 then 1 else 0) := by
      unfold Rx_Buf_Len
      by_cases h : k + 1 + 1 ≥ 50
      · rw [if_pos h, if_pos (Or.inr (Or.inr h))]
      · rw [if_neg h, if_neg (by rintro (h1 | h1 | h1) <;> omega)]
    rw [hif]
    exact ih (k + 1) f (by omega) (by omega)

/-- The collection loop on the 50-character line: it ends when the 50th byte is stored,
with the buffer full of `A` and the time-out count at 1. -/
theorem collect_fiftyAs :
    collect fiftyAs { Timer1_Init with Flag_2 := 1, UART_RX_Data := 65 }
      = .ok ({ Rx_Complete := 1, Counter := 50, Time_Out := 1 }, stateA 50) := by
  unfold collect
  rw [show rxFuel = 199999 + 1 by decide]
  rw [rxLoop_recv_pending _ _ 0 _ _ rfl (by decide) (by decide) (by decide) (by decide)]
  exact rxLoop_fiftyAs 49 0 199999 (by decide) (by decide)

/-! ## `Uart_Clean` -/

theorem Uart_Clean_eq_foldl (s : State) :
    Uart_Clean s = (List.range Rx_Buf_Len).foldl cleanStep s := rfl

theorem cleanStep_foldl (s : State) :
    ∀ n, n ≤ s.UART_Rx.length →
      (List.range n).foldl cleanStep s
        = { s with UART_Rx := (s.UART_Rx.take n).map cleanByte ++ s.UART_Rx.drop n } := by
  intro n
  induction n with
  | zero => intro _; simp
  | succ n ih =>
    intro hn
    have hlt : n < s.UART_Rx.length := by omega
    rw [List.range_succ, List.foldl_append, ih (by omega)]
    simp only [List.foldl_cons, List.foldl_nil]
    have hdrop : s.UART_Rx.drop n = s.UART_Rx[n] :: s.UART_Rx.drop (n + 1) :=
      List.drop_eq_getElem_cons hlt
    have htake : s.UART_Rx.take (n + 1) = s.UART_Rx.take n ++ [s.UART_Rx[n]] := by
      rw [List.take_succ, List.getElem?_eq_getElem hlt]
      rfl
    have hlen : ((s.UART_Rx.take n).map cleanByte).length = n := by
      simp [List.length_take]
      omega
    have hget : ((s.UART_Rx.take n).map cleanByte ++ s.UART_Rx.drop n).getD n 0
        = s.UART_Rx[n] := by
      rw [hdrop, List.getD_eq_getElem?_getD, List.getElem?_append_right (by omega), hlen,
        Nat.sub_self, List.getElem?_cons_zero, Option.getD_some]
    have hset : ((s.UART_Rx.take n).map cleanByte ++ s.UART_Rx.drop n).set n 0
        = (s.UART_Rx.take n).map cleanByte ++ 0 :: s.UART_Rx.drop (n + 1) := by
      rw [hdrop, List.set_append_right n 0 (by omega), hlen, Nat.sub_self]
      rfl
    unfold cleanStep
    dsimp only
    rw [hget, hset, htake, List.map_append, List.append_assoc]
    by_cases hc : s.UART_Rx[n] = 13 ∨ s.UART_Rx[n] = 10
    · rw [if_pos hc]
      simp [cleanByte, hc]
    · rw [if_neg hc, hdrop]
      simp [cleanByte, hc]

theorem Uart_Clean_eq (s : State) (hlen : s.UART_Rx.length = 50) :
    Uart_Clean s = { s with UART_Rx := s.UART_Rx.map cleanByte } := by
  rw [Uart_Clean_eq_foldl, cleanStep_foldl s Rx_Buf_Len (by unfold Rx_Buf_Len; omega)]
  have h1 : s.UART_Rx.take Rx_Buf_Len = s.UART_Rx :=
    List.take_of_length_le (by unfold Rx_Buf_Len; omega)
  have h2 : s.UART_Rx.drop Rx_Buf_Len = [] :=
    List.drop_of_length_le (by unfold Rx_Buf_Len; omega)
  rw [h1, h2, List.append_nil]

theorem Uart_Clean_of_no_terminator (s : State) (hlen : s.UART_Rx.length = 50)
    (h : ∀ c ∈ s.UART_Rx, c ≠ 13 ∧ c ≠ 10) : Uart_Clean s = s := by
  rw [Uart_Clean_eq s hlen]
  have : s.UART_Rx.map cleanByte = s.UART_Rx := by
    conv_rhs => rw [← List.map_id s.UART_Rx]
    apply List.map_congr_left
    intro c hc
    have := h c hc
    simp [cleanByte, this.1, this.2]
  rw [this]

/-! ## Two receptions evaluated: a full buffer, and the partial line `FR` -/

theorem afterCheck_stateA (t3 t5 : List Nat) : afterCheck (stateA 50) t3 t5 = stateA 50 := by
  unfold afterCheck
  rw [Uart_Clean_of_no_terminator (stateA 50) (bufA_length 50 (by decide)) (by decide),
    Uart_Check_String_other (stateA 50) t3 t5 (by decide) (by decide)]
  rfl

/-- A line of 50 characters `A` without terminator (the first pending at entry, the others
arriving every 16 polls) in the power-on state: the loop ends on the 50th byte and the
echo is made.  `UART_Rx` then holds no NUL, so `putsUSART` sends the 50 characters, then
the bytes `cstr adj` found in the memory behind `UART_Rx` up to the first NUL (none when
the byte behind the buffer is NUL), then `\r\n`. -/
theorem UART0RX_echo_overrun (adj t3 t5 : List Nat) :
    UART0RX fiftyAs adj t3 t5 { Timer1_Init with Flag_2 := 1, UART_RX_Data := 65 }
      = .ok { stateA 50 with Sent := List.replicate 50 65 ++ cstr adj ++ str "\r\n" } := by
  rw [UART0RX_eq, collect_fiftyAs]
  dsimp only
  rw [if_pos (by decide), afterCheck_stateA, putsUSART_eq, putsUSART_eq]
  have h1 : cstr ((stateA 50).UART_Rx ++ adj) = List.replicate 50 65 ++ cstr adj :=
    cstr_append_of_ne (List.replicate 50 65) adj (by decide)
  have h2 : cstr (str "\r\n") = str "\r\n" := by decide
  dsimp only
  rw [h1, h2]
  rfl

theorem cleanByte_getD (rx : List Nat) (i : Nat) :
    (rx.map cleanByte).getD i 0 = cleanByte (rx.getD i 0) := by
  rw [List.getD_eq_getElem?_getD, List.getD_eq_getElem?_getD, List.getElem?_map]
  cases rx[i]? with
  | none => rfl
  | some c => rfl

/-- C13: for every content of the 50-byte receive buffer, after `Uart_Clean` the buffer
still has 50 bytes and no position holds a carriage return (13) or newline (10): every
position that held one holds zero and every other position is unchanged; nothing else in
the state changes. -/
theorem Uart_Clean_removes_terminators (s : State) (hlen : s.UART_Rx.length = 50) :
    (Uart_Clean s).UART_Rx.length = 50
      ∧ (∀ i, i < 50 →
          (Uart_Clean s).UART_Rx.getD i 0 ≠ 13 ∧ (Uart_Clean s).UART_Rx.getD i 0 ≠ 10
            ∧ (s.UART_Rx.getD i 0 = 13 ∨ s.UART_Rx.getD i 0 = 10 →
                (Uart_Clean s).UART_Rx.getD i 0 = 0)
            ∧ (¬ (s.UART_Rx.getD i 0 = 13 ∨ s.UART_Rx.getD i 0 = 10) →
                (Uart_Clean s).UART_Rx.getD i 0 = s.UART_Rx.getD i 0))
      ∧ Uart_Clean s = { s with UART_Rx := (Uart_Clean s).UART_Rx } := by
  rw [Uart_Clean_eq s hlen]
  refine ⟨by simp [hlen], fun i _ => ?_, rfl⟩
  dsimp only
  rw [cleanByte_getD]
  unfold cleanByte
  by_cases hc : s.UART_Rx.getD i 0 = 13 ∨ s.UART_Rx.getD i 0 = 10
  · rw [if_pos hc]
    exact ⟨by decide, by decide, fun _ => rfl, fun h => absurd hc h⟩
  · rw [if_neg hc]
    exact ⟨fun h => hc (Or.inl h), fun h => hc (Or.inr h), fun h => absurd h hc, fun _ => rfl⟩

/-- Witness of C13: the buffer holding `FREQ=55` followed by carriage return and newline;
position 7 held the carriage return and holds zero afterwards, position 0 keeps its `F`. -/
theorem Uart_Clean_removes_terminators_witness :
    (lineBuf (str "FREQ=55\r\n")).length = 50
      ∧ (Uart_Clean { Timer1_Init with UART_Rx := lineBuf (str "FREQ=55\r\n") }).UART_Rx.getD 7 0
          = 0
      ∧ (Uart_Clean { Timer1_Init with UART_Rx := lineBuf (str "FREQ=55\r\n") }).UART_Rx.getD 0 0
          = 70 :=
  have h := Uart_Clean_removes_terminators
    { Timer1_Init with UART_Rx := lineBuf (str "FREQ=55\r\n") } (by decide)
  ⟨by decide, (h.2.1 7 (by decide)).2.2.1 (Or.inl (by decide)),
    ((h.2.1 0 (by decide)).2.2.2 (by decide)).trans (by decide)⟩

/-! ## C15: the period is a function of the frequency alone -/

theorem freqRaw_1000 (t5 : List Nat) : freqRaw (lineBuf (str "FREQ=1000")) t5 = 1000 := by
  have hl : ¬ (str "1000").length = 5 := by decide
  have h := freqRaw_line (str "1000") t5 (by decide) (by decide) (fun h5 => absurd h5 hl)
  have e : str "FREQ=" ++ str "1000" = str "FREQ=1000" := by decide
  rw [e] at h
  rw [h]
  decide

theorem processLine_FREQ_1000 (s : State) (t3 t5 : List Nat) :
    (processLine s ⟨lineBuf (str "FREQ=1000"), t3, t5⟩).OCR1A = 1999 := by
  have hp : str "FREQ=" <+: lineBuf (str "FREQ=1000") := by decide
  unfold processLine
  rw [Uart_Check_String_FREQ _ t3 t5 hp]
  dsimp only
  rw [freqRaw_1000, SetFreq_OCR1A]
  decide

/-- C15: the period register written by `SetFreq f` depends on `f` alone: any two prior
states give the same period.  Processing `FREQ=1000`, then `PWM=128`, then `FREQ=1000`
from any state (and whatever the memory behind the `TempString`s holds) leaves the period
register at 1999, the value it had after the first `FREQ=1000`. -/
theorem SetFreq_period_pure :
    (∀ (f : Nat) (s s' : State), (SetFreq s f).OCR1A = (SetFreq s' f).OCR1A)
      ∧ (∀ (s : State) (a b c d e g : List Nat),
          (processLines s [⟨lineBuf (str "FREQ=1000"), a, b⟩]).OCR1A = 1999
            ∧ (processLines s [⟨lineBuf (str "FREQ=1000"), a, b⟩,
                ⟨lineBuf (str "PWM=128"), c, d⟩,
                ⟨lineBuf (str "FREQ=1000"), e, g⟩]).OCR1A = 1999) := by
  constructor
  · intro f s s'
    rw [SetFreq_OCR1A, SetFreq_OCR1A]
  · intro s a b c d e g
    unfold processLines
    rw [List.foldl_cons, List.foldl_nil, List.foldl_cons, List.foldl_cons, List.foldl_cons,
      List.foldl_nil]
    constructor
    · exact processLine_FREQ_1000 s a b
    · exact processLine_FREQ_1000 _ e g

/-! ## C20: the arithmetic of `SetFreq` stays in range -/

/-- C20: for every 16-bit frequency input `f` (0 included), the divisor of `SetFreq` is
not zero, the subtraction does not pass below zero and the result fits 16 bits (the
checked computation returns the state of `SetFreq`), and the period written lies between
29 and 49999. -/
theorem SetFreq_in_range (s : State) (f : Nat) (hf : f < 65536) :
    SetFreq_checked s f = some (SetFreq s f)
      ∧ clampFreq f ≠ 0
      ∧ 1 ≤ 2000000 / clampFreq f
      ∧ (SetFreq s f).OCR1A = 2000000 / clampFreq f - 1
      ∧ 29 ≤ (SetFreq s f).OCR1A ∧ (SetFreq s f).OCR1A ≤ 49999 := by
  have hc : clampFreq f = max f 40 := clampFreq_eq f
  have h40 : 40 ≤ max f 40 := le_max_right _ _
  have hmax : max f 40 < 65536 := max_lt hf (by norm_num)
  have hle : 2000000 / max f 40 ≤ 50000 := by
    calc 2000000 / max f 40 ≤ 2000000 / 40 := Nat.div_le_div_left h40 (by norm_num)
      _ = 50000 := by norm_num
  have hge : 30 ≤ 2000000 / max f 40 := by
    rw [Nat.le_div_iff_mul_le (by omega)]
    omega
  have hchk : SetFreq_checked s f = some (SetFreq s f) := by
    unfold SetFreq_checked
    have e : (if f < 40 then 40 else f) = max f 40 := by
      rw [← hc]
      rfl
    simp only [e]
    rw [if_neg (by omega), if_neg (by omega), if_neg (by omega)]
  rw [SetFreq_OCR1A, periodOf_eq f hf, hc]
  exact ⟨hchk, by omega, by omega, rfl, by omega, by omega⟩

/-- Witness of C20: the input 0, clamped to 40, gives the period 49999. -/
theorem SetFreq_in_range_witness :
    SetFreq_checked Timer1_Init 0 = some (SetFreq Timer1_Init 0)
      ∧ (SetFreq Timer1_Init 0).OCR1A = 49999 :=
  have h := SetFreq_in_range Timer1_Init 0 (by decide)
  ⟨h.1, h.2.2.2.1.trans (by decide)⟩

/-! ## C16, C19: duty resolution after `SetFreq` -/

theorem compareAfter_eq (s : State) (f d : Nat) :
    compareAfter s f d = min d 254 * periodOf f / 255 := by
  unfold compareAfter
  rw [SetPWM_OCR1B]
  show compareOf d (SetFreq s f).OCR1A = _
  rw [SetFreq_OCR1A, compareOf_eq _ _ (periodOf_lt f)]

theorem scaled_lt (p d1 d2 : Nat) (hp : 255 ≤ p) (h : d1 < d2) :
    d1 * p / 255 < d2 * p / 255 := by
  have h1 : (d1 + 1) * p ≤ d2 * p := Nat.mul_le_mul_right p h
  have h2 : d1 * p + 255 ≤ d2 * p := by
    have : (d1 + 1) * p = d1 * p + p := by ring
    omega
  omega

theorem scaled_inj (p d1 d2 : Nat) (hp : 255 ≤ p) (h : d1 * p / 255 = d2 * p / 255) :
    d1 = d2 := by
  rcases Nat.lt_trichotomy d1 d2 with hlt | heq | hgt
  · have := scaled_lt p d1 d2 hp hlt
    omega
  · exact heq
  · have := scaled_lt p d2 d1 hp hgt
    omega

theorem period_ge_255_iff (f : Nat) (hf : f < 65536) :
    255 ≤ periodOf f ↔ max f 40 ≤ 7812 := by
  rw [periodOf_eq f hf]
  have h40 : 40 ≤ max f 40 := le_max_right _ _
  have h1 : 256 ≤ 2000000 / max f 40 ↔ 256 * max f 40 ≤ 2000000 :=
    Nat.le_div_iff_mul_le (by omega)
  constructor
  · intro h
    have := h1.mp (by omega)
    omega
  · intro h
    have := h1.mpr (by omega)
    omega

/-- C19: for every 16-bit requested frequency `f`, after `SetFreq f` the compare value
that `SetPWM` computes from a duty value `d` in `0..254` is `floor(d * period / 255)`;
this map is injective on `0..254` if and only if `max(f,40) ≤ 7812`, which is the case
exactly when the period is at least 255; for every `f ≥ 7813` two distinct duty values
in `0..254` (0 and 1) give the same compare value. -/
theorem duty_injective_iff (s : State) (f : Nat) (hf : f < 65536) :
    (∀ d, d ≤ 254 → compareAfter s f d = d * (SetFreq s f).OCR1A / 255)
      ∧ ((∀ d1 d2, d1 ≤ 254 → d2 ≤ 254 → compareAfter s f d1 = compareAfter s f d2 → d1 = d2)
          ↔ max f 40 ≤ 7812)
      ∧ (max f 40 ≤ 7812 ↔ 255 ≤ (SetFreq s f).OCR1A)
      ∧ (7813 ≤ f → ∃ d1 d2, d1 ≤ 254 ∧ d2 ≤ 254 ∧ d1 ≠ d2
          ∧ compareAfter s f d1 = compareAfter s f d2) := by
  have hval : ∀ d, d ≤ 254 → compareAfter s f d = d * periodOf f / 255 := by
    intro d hd
    rw [compareAfter_eq, min_eq_left hd]
  have hiff := period_ge_255_iff f hf
  have hcoll : ¬ 255 ≤ periodOf f → compareAfter s f 0 = compareAfter s f 1 := by
    intro hp
    rw [hval 0 (by omega), hval 1 (by omega)]
    omega
  refine ⟨?_, ?_, ?_, ?_⟩
  · intro d hd
    rw [SetFreq_OCR1A]
    exact hval d hd
  · constructor
    · intro hinj
      by_contra hnot
      have h01 := hinj 0 1 (by omega) (by omega) (hcoll (fun hp => hnot (hiff.mp hp)))
      omega
    · intro hle d1 d2 h1 h2 heq
      rw [hval d1 h1, hval d2 h2] at heq
      exact scaled_inj _ d1 d2 (hiff.mpr hle) heq
  · rw [SetFreq_OCR1A]
    exact hiff.symm
  · intro h7813
    refine ⟨0, 1, by omega, by omega, by omega, hcoll (fun hp => ?_)⟩
    have := hiff.mp hp
    have : f ≤ max f 40 := le_max_left _ _
    omega

/-- Witness of C19: `f = 7812` gives the period 255. -/
theorem duty_injective_iff_witness :
    (max 7812 40 ≤ 7812 ↔ 255 ≤ (SetFreq Timer1_Init 7812).OCR1A)
      ∧ (SetFreq Timer1_Init 7812).OCR1A = 255 :=
  ⟨(duty_injective_iff Timer1_Init 7812 (by decide)).2.2.1, by decide⟩

/-- C16 fails at `f = 1000` (period 1999, below 7800 Hz) for the duty values 254 and 255:
`SetPWM` lowers 255 to 254, so both give the compare value 1991. -/
theorem duty_254_255_counterexample :
    40 ≤ 1000 ∧ 1000 < 7800 ∧ 254 ≠ 255
      ∧ compareAfter Timer1_Init 1000 254 = 1991
      ∧ compareAfter Timer1_Init 1000 255 = 1991 := by
  decide

/-- C16, amended: for every requested frequency `f` with `40 ≤ f < 7800`, once `SetFreq f`
has set the period register, any two distinct duty values in `0..254` given to `SetPWM`
produce distinct compare register values; the duty value 255 is lowered to 254 and
produces the compare value of 254. -/
theorem duty_resolution_below_7800 (s : State) (f d1 d2 : Nat) (hlo : 40 ≤ f) (hhi : f < 7800)
    (h1 : d1 ≤ 254) (h2 : d2 ≤ 254) (hne : d1 ≠ d2) :
    compareAfter s f d1 ≠ compareAfter s f d2
      ∧ compareAfter s f 255 = compareAfter s f 254 := by
  have hp : 255 ≤ periodOf f :=
    (period_ge_255_iff f (by omega)).mpr (by rw [max_eq_left hlo]; omega)
  constructor
  · intro heq
    rw [compareAfter_eq, compareAfter_eq, min_eq_left h1, min_eq_left h2] at heq
    exact hne (scaled_inj _ d1 d2 hp heq)
  · rw [compareAfter_eq, compareAfter_eq]
    rfl

/-- Witness of the amended C16: `f = 1000` with the duty values 127 and 128. -/
theorem duty_resolution_below_7800_witness :
    compareAfter Timer1_Init 1000 127 ≠ compareAfter Timer1_Init 1000 128
      ∧ compareAfter Timer1_Init 1000 255 = compareAfter Timer1_Init 1000 254 :=
  duty_resolution_below_7800 Timer1_Init 1000 127 128 (by decide) (by decide) (by decide)
    (by decide) (by decide)

/-! ## C17: the range of the effective frequency -/

/-- C17 fails at the line `FREQ=65535` (NUL in `TempString[5]`): the effective frequency
is 65535, above 65000; it is applied (period `floor(2000000 / 65535) - 1 = 29`) and
reported as such. -/
theorem FREQ_65535_counterexample :
    clampFreq (freqRaw (lineBuf (str "FREQ=65535")) [0] % 65536).toNat = 65535
      ∧ ¬ (clampFreq (freqRaw (lineBuf (str "FREQ=65535")) [0] % 65536).toNat ≤ 65000)
      ∧ (Uart_Check_String { Timer1_Init with UART_Rx := lineBuf (str "FREQ=65535") }
          [] [0]).OCR1A = 29
      ∧ (Uart_Check_String { Timer1_Init with UART_Rx := lineBuf (str "FREQ=65535") }
          [] [0]).Sent
          = str "PWM set to 49%\n" ++ str "Match A\t29\nMatch B\t14\n"
            ++ str "Frequency set to 65535 Hz\n" := by
  decide

/-- C17, amended: for every line beginning with `FREQ=`, the effective frequency, which is
the parsed 16-bit value raised to at least 40, lies between 40 and 65535; `SetFreq` is
called with the parsed value, the period register is computed from the effective
frequency and the transmitted text ends with the report of the effective frequency.  No
upper limit of 65000 is applied. -/
theorem FREQ_effective_range (s : State) (t3 t5 : List Nat)
    (hp : str "FREQ=" <+: s.UART_Rx) :
    40 ≤ clampFreq (freqRaw s.UART_Rx t5 % 65536).toNat
      ∧ clampFreq (freqRaw s.UART_Rx t5 % 65536).toNat ≤ 65535
      ∧ Uart_Check_String s t3 t5 = SetFreq s (freqRaw s.UART_Rx t5 % 65536).toNat
      ∧ (Uart_Check_String s t3 t5).OCR1A
          = 2000000 / clampFreq (freqRaw s.UART_Rx t5 % 65536).toNat - 1
      ∧ (Uart_Check_String s t3 t5).Sent
          = s.Sent ++ msgPWM ((Uart_Check_String s t3 t5).DutyCycle * 100 / 255)
              ++ msgMatch (Uart_Check_String s t3 t5).OCR1A (Uart_Check_String s t3 t5).OCR1B
              ++ msgFreq (clampFreq (freqRaw s.UART_Rx t5 % 65536).toNat) := by
  have hlt : (freqRaw s.UART_Rx t5 % 65536).toNat < 65536 := by omega
  have hc := clampFreq_eq (freqRaw s.UART_Rx t5 % 65536).toNat
  have h40 : 40 ≤ max (freqRaw s.UART_Rx t5 % 65536).toNat 40 := le_max_right _ _
  have hmax : max (freqRaw s.UART_Rx t5 % 65536).toNat 40 < 65536 :=
    max_lt hlt (by norm_num)
  rw [Uart_Check_String_FREQ s t3 t5 hp, SetFreq_OCR1A, SetFreq_Sent, SetFreq_DutyCycle,
    SetFreq_OCR1B, periodOf_eq _ hlt, hc]
  exact ⟨h40, by omega, rfl, rfl, rfl⟩

/-- Witness of the amended C17: the line `FREQ=55` of the file header, received in the
power-on state; the effective frequency is 55. -/
theorem FREQ_effective_range_witness :
    40 ≤ clampFreq (freqRaw (lineBuf (str "FREQ=55")) [] % 65536).toNat
      ∧ clampFreq (freqRaw (lineBuf (str "FREQ=55")) [] % 65536).toNat ≤ 65535
      ∧ clampFreq (freqRaw (lineBuf (str "FREQ=55")) [] % 65536).toNat = 55 :=
  have h := FREQ_effective_range { Timer1_Init with UART_Rx := lineBuf (str "FREQ=55") } [] []
    (by decide)
  ⟨h.1, h.2.1, by decide⟩

/-! ## C14: repeating a `PWM=` line -/

theorem processLine_PWM (s : State) (ln : Line) (hp : str "PWM=" <+: ln.rx) :
    processLine s ln
      = SetPWM { s with UART_Rx := ln.rx, DutyCycle := (pwmRaw ln.rx ln.t3 % 256).toNat } := by
  unfold processLine
  rw [Uart_Check_String_PWM _ ln.t3 ln.t5 hp]

/-- Repeating a line beginning with `PWM=` when both runs find the same bytes in the
unwritten part of `TempString` (the two runs are given the same `Line`): the second run
leaves the period register, the compare register and the stored duty cycle as they were
after the first, and sends the same two texts (same percentage, same match values). -/
theorem PWM_line_idempotent (s : State) (ln : Line) (hp : str "PWM=" <+: ln.rx) :
    (processLine (processLine s ln) ln).OCR1A = (processLine s ln).OCR1A
      ∧ (processLine (processLine s ln) ln).OCR1B = (processLine s ln).OCR1B
      ∧ (processLine (processLine s ln) ln).DutyCycle = (processLine s ln).DutyCycle
      ∧ (processLine s ln).Sent
          = s.Sent ++ msgPWM ((processLine s ln).DutyCycle * 100 / 255)
              ++ msgMatch (processLine s ln).OCR1A (processLine s ln).OCR1B
      ∧ (processLine (processLine s ln) ln).Sent
          = (processLine s ln).Sent ++ msgPWM ((processLine s ln).DutyCycle * 100 / 255)
              ++ msgMatch (processLine s ln).OCR1A (processLine s ln).OCR1B := by
  rw [processLine_PWM (processLine s ln) ln hp]
  simp only [SetPWM_OCR1A, SetPWM_OCR1B, SetPWM_DutyCycle, SetPWM_Sent]
  rw [processLine_PWM s ln hp]
  simp only [SetPWM_OCR1A, SetPWM_OCR1B, SetPWM_DutyCycle, SetPWM_Sent]
  exact ⟨trivial, trivial, trivial, trivial, trivial⟩

/-- The line `PWM=252` of the file header, received twice in the power-on state with a NUL
in `TempString[3]` both times. -/
theorem PWM_line_idempotent_witness :
    (processLine (processLine Timer1_Init ⟨lineBuf (str "PWM=252"), [0], []⟩)
        ⟨lineBuf (str "PWM=252"), [0], []⟩).OCR1B
      = (processLine Timer1_Init ⟨lineBuf (str "PWM=252"), [0], []⟩).OCR1B
      ∧ (processLine Timer1_Init ⟨lineBuf (str "PWM=252"), [0], []⟩).OCR1B = 1975
      ∧ (processLine Timer1_Init ⟨lineBuf (str "PWM=252"), [0], []⟩).DutyCycle = 252 :=
  ⟨(PWM_line_idempotent Timer1_Init ⟨lineBuf (str "PWM=252"), [0], []⟩ (by decide)).2.1,
    by decide, by decide⟩

/-- C14, evaluated on the line `PWM=100` processed twice in a row from the power-on state.
`strncpy` writes `TempString[0..2]` and nothing else, so `atoi` reads on into
`TempString[3]`, which no statement of the program writes.  With a NUL there at the first
processing the value parsed is 100: duty 100, compare 783, report `39%`.  With the
character `5` there (and a NUL after it) at the second processing of the same line the
value parsed is 1005, stored in 8 bits as 237: duty 237, compare 1857, report `92%`.  The
period register is 1999 throughout.  The second processing does not leave the compare
register and the duty cycle as the first left them, and reports another percentage. -/
theorem PWM_100_repeated :
    (processLine Timer1_Init ⟨lineBuf (str "PWM=100"), [0], []⟩).DutyCycle = 100
      ∧ (processLine Timer1_Init ⟨lineBuf (str "PWM=100"), [0], []⟩).OCR1A = 1999
      ∧ (processLine Timer1_Init ⟨lineBuf (str "PWM=100"), [0], []⟩).OCR1B = 783
      ∧ (processLine Timer1_Init ⟨lineBuf (str "PWM=100"), [0], []⟩).Sent
          = str "PWM set to 39%\n" ++ str "Match A\t1999\nMatch B\t783\n"
      ∧ pwmRaw (lineBuf (str "PWM=100")) [53, 0] = 1005
      ∧ (processLine (processLine Timer1_Init ⟨lineBuf (str "PWM=100"), [0], []⟩)
          ⟨lineBuf (str "PWM=100"), [53, 0], []⟩).DutyCycle = 237
      ∧ (processLine (processLine Timer1_Init ⟨lineBuf (str "PWM=100"), [0], []⟩)
          ⟨lineBuf (str "PWM=100"), [53, 0], []⟩).OCR1A = 1999
      ∧ (processLine (processLine Timer1_Init ⟨lineBuf (str "PWM=100"), [0], []⟩)
          ⟨lineBuf (str "PWM=100"), [53, 0], []⟩).OCR1B = 1857
      ∧ (processLine (processLine Timer1_Init ⟨lineBuf (str "PWM=100"), [0], []⟩)
          ⟨lineBuf (str "PWM=100"), [53, 0], []⟩).Sent
          = str "PWM set to 39%\n" ++ str "Match A\t1999\nMatch B\t783\n"
            ++ str "PWM set to 92%\n" ++ str "Match A\t1999\nMatch B\t1857\n" := by
  decide

/-! ## C11, C12: bounds of the buffer accesses, and the missing terminator -/

theorem pollBody_ok_iff (l : RxLocals) (s : State) :
    (∃ r, pollBody l s = .ok r)
      ↔ (s.Flag_2 = 1 → l.Counter ≤ 49) ∧ (s.Flag_2 ≠ 1 → 1 ≤ l.Counter ∧ l.Counter ≤ 50) := by
  by_cases hf : s.Flag_2 = 1
  · by_cases hc : l.Counter < 50
    · have h1 : (l.Counter + 1) % 256 = l.Counter + 1 := by omega
      have h2 : 1 ≤ l.Counter + 1 ∧ l.Counter + 1 - 1 < 50 := ⟨by omega, by omega⟩
      have e : ∃ r, pollBody l s = .ok r := by
        unfold pollBody Rx_Buf_Len
        simp only [hf, hc, h1, ↓reduceIte, h2, and_self]
        exact ⟨_, rfl⟩
      exact ⟨fun _ => ⟨fun _ => by omega, fun h => absurd hf h⟩, fun _ => e⟩
    · have e : pollBody l s = .error .outOfBounds := by
        unfold pollBody Rx_Buf_Len
        simp only [hf, hc, ↓reduceIte]
      constructor
      · rintro ⟨r, hr⟩
        rw [e] at hr
        cases hr
      · intro h
        have := h.1 hf
        omega
  · by_cases hc : 1 ≤ l.Counter ∧ l.Counter - 1 < 50
    · have e : ∃ r, pollBody l s = .ok r := by
        unfold pollBody Rx_Buf_Len
        simp only [hf, ↓reduceIte, hc, and_self]
        exact ⟨_, rfl⟩
      exact ⟨fun _ => ⟨fun h => absurd h hf, fun _ => ⟨hc.1, by omega⟩⟩, fun _ => e⟩
    · have e : pollBody l s = .error .outOfBounds := by
        unfold pollBody Rx_Buf_Len
        simp only [hf, ↓reduceIte, hc]
      constructor
      · rintro ⟨r, hr⟩
        rw [e] at hr
        cases hr
      · intro h
        have := h.2 hf
        exact absurd ⟨this.1, by omega⟩ hc

/-- The guard of `main` matters: entered without a pending byte and with no byte arriving
before the first poll, the loop reads `UART_Rx[Counter-1]` with `Counter = 0`. -/
theorem collect_without_pending_byte :
    collect (fun _ => none) { Timer1_Init with Flag_2 := 0 } = .error .outOfBounds := by
  rfl

/-- C11: for every byte-arrival schedule, when `UART0RX` is entered with a pending byte
(`Flag_2 = 1`), the collection loop runs to its end without any out-of-bounds access
(a poll passes the bounds checks exactly when its write `UART_Rx[Counter]` has
`Counter ≤ 49` and its read `UART_Rx[Counter-1]` has `1 ≤ Counter ≤ 50`); between 1 and 50
bytes are counted as stored and the buffer keeps its 50 bytes. -/
theorem collect_in_bounds (sched : Nat → Option Nat) (s : State) (hf : s.Flag_2 = 1) :
    (∃ l s1, collect sched s = .ok (l, s1) ∧ 1 ≤ l.Counter ∧ l.Counter ≤ 50
        ∧ s1.UART_Rx.length = 50)
      ∧ collect sched s ≠ .error .outOfBounds
      ∧ (∀ (l : RxLocals) (s' : State),
          (∃ r, pollBody l s' = .ok r)
            ↔ (s'.Flag_2 = 1 → l.Counter ≤ 49)
              ∧ (s'.Flag_2 ≠ 1 → 1 ≤ l.Counter ∧ l.Counter ≤ 50)) := by
  obtain ⟨l, s1, hcol, -, h1, h50, hlen, -⟩ := collect_spec sched s hf
  refine ⟨⟨l, s1, hcol, h1, h50, hlen⟩, ?_, pollBody_ok_iff⟩
  rw [hcol]
  intro h
  cases h

/-- Witness of C11: the 50-character line received in the power-on state. -/
theorem collect_in_bounds_witness :
    collect fiftyAs { Timer1_Init with Flag_2 := 1, UART_RX_Data := 65 }
      ≠ .error .outOfBounds :=
  (collect_in_bounds fiftyAs { Timer1_Init with Flag_2 := 1, UART_RX_Data := 65 } rfl).2.1

/-- C12, evaluated on the line of 50 characters `A` without terminator received in the
power-on state: the loop stores all 50 characters, `Uart_Clean` finds nothing to replace,
and the buffer handed to `Uart_Check_String` and to the echo holds 50 non-zero bytes and
no NUL; `UART0RX` returns with the buffer in this state. -/
theorem UART0RX_buffer_without_NUL (adj t3 t5 : List Nat) :
    collect fiftyAs { Timer1_Init with Flag_2 := 1, UART_RX_Data := 65 }
        = .ok ({ Rx_Complete := 1, Counter := 50, Time_Out := 1 }, stateA 50)
      ∧ (Uart_Clean (stateA 50)).UART_Rx = List.replicate 50 65
      ∧ 0 ∉ (Uart_Clean (stateA 50)).UART_Rx
      ∧ (∃ s2, UART0RX fiftyAs adj t3 t5 { Timer1_Init with Flag_2 := 1, UART_RX_Data := 65 }
            = .ok s2 ∧ s2.UART_Rx = List.replicate 50 65 ∧ 0 ∉ s2.UART_Rx) := by
  have hclean : Uart_Clean (stateA 50) = stateA 50 :=
    Uart_Clean_of_no_terminator (stateA 50) (bufA_length 50 (by decide)) (by decide)
  have hrx : (stateA 50).UART_Rx = List.replicate 50 65 := by decide
  have h0 : 0 ∉ List.replicate 50 65 := by decide
  refine ⟨collect_fiftyAs, by rw [hclean, hrx], by rw [hclean, hrx]; exact h0, ?_⟩
  refine ⟨putsUSART (putsUSART (stateA 50) ((stateA 50).UART_Rx ++ adj)) (str "\r\n"),
    ?_, ?_, ?_⟩
  · rw [UART0RX_eq, collect_fiftyAs]
    dsimp only
    rw [if_pos (by decide), afterCheck_stateA]
  · rw [putsUSART_eq, putsUSART_eq]
    exact hrx
  · rw [putsUSART_eq, putsUSART_eq]
    show 0 ∉ (stateA 50).UART_Rx
    rw [hrx]
    exact h0

/-! ## C18: termination of the collection loop, in terms of the bytes that arrive -/

theorem rxLoopN_done (sched : Nat → Option Nat) (fuel i : Nat) (l : RxLocals) (s : State)
    (h : l.Rx_Complete ≠ 0) : rxLoopN sched (fuel + 1) i l s = .ok (i, l, s) := by
  simp only [rxLoopN, h, ne_eq, not_false_eq_true, ↓reduceIte]

theorem rxLoopN_step (sched : Nat → Option Nat) (fuel i : Nat) (l : RxLocals) (s : State)
    (h : l.Rx_Complete = 0) :
    rxLoopN sched (fuel + 1) i l s =
      match pollBody l (match sched i with
          | some b => USART0_RX_vect s b
          | none => s) with
      | .error e => .error e
      | .ok (l, s) => rxLoopN sched fuel (i + 1) l s := by
  simp only [rxLoopN, h, ne_eq, not_true_eq_false, ↓reduceIte]

theorem rxLoop_of_rxLoopN (sched : Nat → Option Nat) :
    ∀ (fuel i : Nat) (l : RxLocals) (s : State) (n : Nat) (l' : RxLocals) (s' : State),
      rxLoopN sched fuel i l s = .ok (n, l', s') → rxLoop sched fuel i l s = .ok (l', s') := by
  intro fuel
  induction fuel with
  | zero =>
    intro i l s n l' s' h
    simp only [rxLoopN] at h
    cases h
  | succ fuel ih =>
    intro i l s n l' s' h
    by_cases hrc : l.Rx_Complete = 0
    · rw [rxLoopN_step sched fuel i l s hrc] at h
      rw [rxLoop_step sched fuel i l s hrc]
      cases hp : pollBody l (match sched i with
          | some b => USART0_RX_vect s b
          | none => s) with
      | error e =>
        rw [hp] at h
        cases h
      | ok r =>
        rw [hp] at h
        exact ih _ _ _ _ _ _ h
    · rw [rxLoopN_done sched fuel i l s hrc] at h
      rw [rxLoop_done sched fuel i l s hrc]
      cases h
      rfl

theorem received_succ (sched : Nat → Option Nat) (b0 i : Nat) :
    received sched b0 (i + 1) = received sched b0 i ++ (byteAt sched b0 i).toList := by
  unfold received
  rw [List.range_succ, List.filterMap_append]
  cases h : byteAt sched b0 i with
  | none => simp [h]
  | some b => simp [h]

theorem byteAt_pos (sched : Nat → Option Nat) (b0 i : Nat) (hi : 1 ≤ i) :
    byteAt sched b0 i = sched i := by
  unfold byteAt
  rw [if_neg (by omega)]

theorem set_after_prefix (pre rest : List Nat) (x c : Nat) :
    (pre ++ x :: rest).set pre.length c = pre ++ c :: rest := by
  rw [List.set_append_right _ _ (le_refl _), Nat.sub_self]
  rfl

theorem buffer_store (pre : List Nat) (b : Nat) (hlen : pre.length ≤ 49) :
    (pre ++ List.replicate (50 - pre.length) 0).set pre.length b
      = (pre ++ [b]) ++ List.replicate (50 - (pre.length + 1)) 0 := by
  have h1 : 50 - pre.length = (50 - (pre.length + 1)) + 1 := by omega
  rw [h1, List.replicate_succ, set_after_prefix, List.append_assoc]
  rfl

theorem buffer_last (pre : List Nat) (b : Nat) (rest : List Nat) :
    ((pre ++ [b]) ++ rest).getD (pre.length + 1 - 1) 0 = b := by
  rw [Nat.add_sub_cancel, List.append_assoc, List.getD_eq_getElem?_getD,
    List.getElem?_append_right (le_refl _), Nat.sub_self, List.singleton_append,
    List.getElem?_cons_zero, Option.getD_some]
theorem received_length_succ_some (sched : Nat → Option Nat) (b0 i b : Nat)
    (h : byteAt sched b0 i = some b) :
    received sched b0 (i + 1) = received sched b0 i ++ [b]
      ∧ (received sched b0 (i + 1)).length = (received sched b0 i).length + 1 := by
  rw [received_succ, h]
  simp

theorem received_succ_none (sched : Nat → Option Nat) (b0 i : Nat)
    (h : byteAt sched b0 i = none) :
    received sched b0 (i + 1) = received sched b0 i := by
  rw [received_succ, h]
  simp

theorem rxLoopN_trace (sched : Nat → Option Nat) (b0 : Nat) :
    ∀ (fuel i : Nat) (l : RxLocals) (s : State), RxTrace sched b0 i l s →
      (50 - l.Counter) * 2002 + (2001 - l.Time_Out) + 2 ≤ fuel →
      ∃ n l' s', rxLoopN sched fuel i l s = .ok (n, l', s') ∧ RxEnd sched b0 n l' s' := by
  intro fuel
  induction fuel with
  | zero => intro i l s _ hfuel; omega
  | succ fuel ih =>
    intro i l s hinv hfuel
    obtain ⟨hrc, hi, hcnt, hc1, hc, hbuf, hlast, hflag, ht1, ht, hti, hsome, hidle, hno⟩ := hinv
    have hlen : s.UART_Rx.length = 50 := by
      rw [hbuf, List.length_append, List.length_replicate, ← hcnt]
      omega
    rw [rxLoopN_step sched fuel i l s hrc]
    cases hsch : sched i with
    | some b =>
      have hbyte : byteAt sched b0 i = some b := by rw [byteAt_pos sched b0 i hi, hsch]
      obtain ⟨hrec, hreclen⟩ := received_length_succ_some sched b0 i b hbyte
      have hstore : s.UART_Rx.set l.Counter b
          = received sched b0 (i + 1) ++ List.replicate (50 - (l.Counter + 1)) 0 := by
        rw [hbuf, hcnt, buffer_store _ b (by omega), hrec]
      dsimp only
      rw [pollBody_recv l (USART0_RX_vect s b) rfl hc hlen]
      dsimp only [USART0_RX_vect]
      by_cases hd : b = 13 ∨ b = 10 ∨ l.Counter + 1 ≥ Rx_Buf_Len
      · rw [if_pos hd]
        obtain ⟨k, rfl⟩ : ∃ k, fuel = k + 1 := ⟨fuel - 1, by omega⟩
        rw [rxLoopN_done _ _ _ _ _ (by simp)]
        refine ⟨_, _, _, rfl, by omega, Or.inl ⟨b, ?_, ?_⟩, ?_, ?_, ?_⟩
        · rw [Nat.add_sub_cancel]
          exact hbyte
        · rw [Nat.add_sub_cancel]
          rcases hd with h | h | h
          · exact Or.inl h
          · exact Or.inr (Or.inl h)
          · unfold Rx_Buf_Len at h
            exact Or.inr (Or.inr (by omega))
        · intro j hj
          exact hno j (by omega)
        · show l.Counter + 1 = _
          omega
        · show s.UART_Rx.set l.Counter b = _
          rw [hstore, hreclen, hcnt]
      · rw [if_neg hd, hrc]
        have hd' : b ≠ 13 ∧ b ≠ 10 ∧ l.Counter + 1 < 50 := by
          unfold Rx_Buf_Len at hd
          refine ⟨fun h => hd (Or.inl h), fun h => hd (Or.inr (Or.inl h)), ?_⟩
          by_contra h
          exact hd (Or.inr (Or.inr (by omega)))
        apply ih (i + 1) { Rx_Complete := 0, Counter := l.Counter + 1, Time_Out := 1 }
          { s with Flag_2 := 0, UART_RX_Data := b, UART_Rx := s.UART_Rx.set l.Counter b }
        · refine ⟨rfl, by omega, ?_, by simp, by simp only; omega, ?_, ?_, by simp, by simp,
            by simp, by simp, ?_, ?_, ?_⟩
          · show l.Counter + 1 = _
            omega
          · show s.UART_Rx.set l.Counter b = _
            exact hstore
          · show (s.UART_Rx.set l.Counter b).getD (l.Counter + 1 - 1) 0 ≠ 13
              ∧ (s.UART_Rx.set l.Counter b).getD (l.Counter + 1 - 1) 0 ≠ 10
            have hg : (s.UART_Rx.set l.Counter b).getD (l.Counter + 1 - 1) 0 = b := by
              rw [hbuf, hcnt, buffer_store _ b (by omega), buffer_last]
            rw [hg]
            exact ⟨hd'.1, hd'.2.1⟩
          · show byteAt sched b0 (i + 1 - 1) ≠ none
            rw [Nat.add_sub_cancel, hbyte]
            simp
          · intro j h1 h2
            have h1' : i + 1 - 1 < j := h1
            omega
          · intro j hj
            rcases Nat.lt_or_ge j i with hlt | hge
            · exact hno j hlt
            · have hji : j = i := by omega
              subst hji
              constructor
              · rintro ⟨b', hb', hstop⟩
                rw [hbyte] at hb'
                cases hb'
                rcases hstop with h | h | h
                · exact hd'.1 h
                · exact hd'.2.1 h
                · omega
              · rintro ⟨-, hall⟩
                have := hall j (by omega) (le_refl _)
                rw [hbyte] at this
                cases this
        · simp only
          omega
    | none =>
      have hbyte : byteAt sched b0 i = none := by rw [byteAt_pos sched b0 i hi, hsch]
      have hrec := received_succ_none sched b0 i hbyte
      dsimp only
      rw [pollBody_idle l s hflag hc1 hc ht hlast]
      dsimp only
      by_cases hto : l.Time_Out > 2000
      · rw [if_pos hto]
        obtain ⟨k, rfl⟩ : ∃ k, fuel = k + 1 := ⟨fuel - 1, by omega⟩
        rw [rxLoopN_done _ _ _ _ _ (by simp)]
        refine ⟨_, _, _, rfl, by omega, Or.inr ⟨?_, ?_⟩, ?_, ?_, ?_⟩
        · rw [Nat.add_sub_cancel]
          omega
        · rw [Nat.add_sub_cancel]
          intro j h1 h2
          rcases Nat.lt_or_ge j i with hlt | hge
          · exact hidle j (by omega) hlt
          · have hji : j = i := by omega
            rw [hji]
            exact hbyte
        · intro j hj
          exact hno j (by omega)
        · show l.Counter = _
          rw [hrec]
          exact hcnt
        · show s.UART_Rx = _
          rw [hrec, ← hcnt]
          exact hbuf
      · rw [if_neg hto, hrc]
        apply ih (i + 1) { Rx_Complete := 0, Counter := l.Counter, Time_Out := l.Time_Out + 1 } s
        · refine ⟨rfl, by omega, ?_, hc1, hc, ?_, hlast, hflag, by simp, by simp only; omega,
            by simp only; omega, ?_, ?_, ?_⟩
          · show l.Counter = _
            rw [hrec]
            exact hcnt
          · show s.UART_Rx = _
            rw [hrec]
            exact hbuf
          · show byteAt sched b0 (i + 1 - (l.Time_Out + 1)) ≠ none
            rw [Nat.add_sub_add_right]
            exact hsome
          · intro j h1 h2
            have h1' : i + 1 - (l.Time_Out + 1) < j := h1
            rw [Nat.add_sub_add_right] at h1'
            rcases Nat.lt_or_ge j i with hlt | hge
            · exact hidle j h1' hlt
            · have hji : j = i := by omega
              rw [hji]
              exact hbyte
          · intro j hj
            rcases Nat.lt_or_ge j i with hlt | hge
            · exact hno j hlt
            · have hji : j = i := by omega
              subst hji
              constructor
              · rintro ⟨b', hb', -⟩
                rw [hbyte] at hb'
                cases hb'
              · rintro ⟨-, hall⟩
                exact hsome (hall (j - l.Time_Out) (by omega) (by omega))
        · simp only
          omega
theorem collectN_trace (sched : Nat → Option Nat) (s : State) (hf : s.Flag_2 = 1) :
    ∃ n l s1, collectN sched s = .ok (n, l, s1) ∧ RxEnd sched s.UART_RX_Data n l s1 := by
  have hisr : ∃ s0 : State, (match sched 0 with
        | some b => USART0_RX_vect { s with UART_Rx := List.replicate Rx_Buf_Len 0 } b
        | none => { s with UART_Rx := List.replicate Rx_Buf_Len 0 }) = s0
      ∧ s0.Flag_2 = 1 ∧ s0.UART_RX_Data = (sched 0).getD s.UART_RX_Data
      ∧ s0.UART_Rx = List.replicate 50 0 := by
    cases sched 0 with
    | none => exact ⟨_, rfl, hf, rfl, rfl⟩
    | some b => exact ⟨_, rfl, rfl, rfl, rfl⟩
  obtain ⟨s0, hs0, hflag, hdata, hrx⟩ := hisr
  have hbyte : byteAt sched s.UART_RX_Data 0 = some ((sched 0).getD s.UART_RX_Data) := by
    unfold byteAt
    rw [if_pos rfl]
  have hrec0 : received sched s.UART_RX_Data 0 = [] := rfl
  obtain ⟨hrec, hreclen⟩ := received_length_succ_some sched s.UART_RX_Data 0 _ hbyte
  rw [hrec0, List.nil_append] at hrec
  rw [hrec0, List.length_nil, Nat.zero_add] at hreclen
  have hstore : s0.UART_Rx.set 0 s0.UART_RX_Data
      = received sched s.UART_RX_Data 1 ++ List.replicate (50 - 1) 0 := by
    rw [hrx, hdata, hrec]
    rfl
  unfold collectN
  rw [show rxFuel = 199999 + 1 by decide,
    rxLoopN_step sched 199999 0 _ _ rfl, hs0,
    pollBody_recv { Rx_Complete := 0, Counter := 0, Time_Out := 0 } s0 hflag (by simp)
      (by rw [hrx]; simp)]
  dsimp only
  by_cases hd : s0.UART_RX_Data = 13 ∨ s0.UART_RX_Data = 10 ∨ 0 + 1 ≥ Rx_Buf_Len
  · rw [if_pos hd, rxLoopN_done _ _ _ _ _ (by simp)]
    refine ⟨_, _, _, rfl, by omega, Or.inl ⟨_, hbyte, ?_⟩, fun j hj => by omega, ?_, ?_⟩
    · rw [← hdata]
      rcases hd with h | h | h
      · exact Or.inl h
      · exact Or.inr (Or.inl h)
      · unfold Rx_Buf_Len at h
        omega
    · show 0 + 1 = (received sched s.UART_RX_Data 1).length
      omega
    · show s0.UART_Rx.set 0 s0.UART_RX_Data = _
      rw [hstore, hreclen]
  · rw [if_neg hd]
    have hd' : s0.UART_RX_Data ≠ 13 ∧ s0.UART_RX_Data ≠ 10 :=
      ⟨fun h => hd (Or.inl h), fun h => hd (Or.inr (Or.inl h))⟩
    apply rxLoopN_trace sched s.UART_RX_Data 199999 1
      { Rx_Complete := 0, Counter := 0 + 1, Time_Out := 1 }
      { s0 with Flag_2 := 0, UART_Rx := s0.UART_Rx.set 0 s0.UART_RX_Data }
    · refine ⟨rfl, le_refl _, ?_, by simp, by simp, ?_, ?_, by simp, by simp, by simp, by simp,
        ?_, ?_, ?_⟩
      · show 0 + 1 = (received sched s.UART_RX_Data 1).length
        omega
      · show s0.UART_Rx.set 0 s0.UART_RX_Data = _
        exact hstore
      · show (s0.UART_Rx.set 0 s0.UART_RX_Data).getD (0 + 1 - 1) 0 ≠ 13
          ∧ (s0.UART_Rx.set 0 s0.UART_RX_Data).getD (0 + 1 - 1) 0 ≠ 10
        have hg : (s0.UART_Rx.set 0 s0.UART_RX_Data).getD (0 + 1 - 1) 0 = s0.UART_RX_Data := by
          rw [hrx]
          rfl
        rw [hg]
        exact hd'
      · show byteAt sched s.UART_RX_Data (1 - 1) ≠ none
        rw [Nat.sub_self, hbyte]
        simp
      · intro j h1 h2
        have h1' : 1 - 1 < j := h1
        omega
      · intro j hj
        have hj0 : j = 0 := by omega
        subst hj0
        constructor
        · rintro ⟨b', hb', hstop⟩
          rw [hbyte] at hb'
          cases hb'
          rw [← hdata] at hstop
          rcases hstop with h | h | h
          · exact hd'.1 h
          · exact hd'.2 h
          · have h' : (received sched s.UART_RX_Data 1).length = 50 := h
            omega
        · rintro ⟨h2000, -⟩
          omega
    · simp only
      omega

/-- C18: for every byte-arrival schedule (one optional byte per poll), the collection
loop of `UART0RX`, entered with a pending byte, terminates after some number `n ≥ 1` of
polls.  Its last poll `n-1` is the first poll that either stores a carriage return, a
newline or the 50th byte, or is the 2001st consecutive poll without a new byte: no
earlier poll meets either condition.  The buffer then holds exactly the bytes stored so
far followed by zeros, and `Counter` is their number. -/
theorem collect_terminates (sched : Nat → Option Nat) (s : State) (hf : s.Flag_2 = 1) :
    ∃ n l s1, collectN sched s = .ok (n, l, s1) ∧ collect sched s = .ok (l, s1)
      ∧ 1 ≤ n
      ∧ (charStop sched s.UART_RX_Data (n - 1) ∨ idleStop sched s.UART_RX_Data (n - 1))
      ∧ (∀ j, j < n - 1 →
          ¬ charStop sched s.UART_RX_Data j ∧ ¬ idleStop sched s.UART_RX_Data j)
      ∧ l.Counter = (received sched s.UART_RX_Data n).length
      ∧ s1.UART_Rx = received sched s.UART_RX_Data n
          ++ List.replicate (50 - (received sched s.UART_RX_Data n).length) 0 := by
  obtain ⟨n, l, s1, hN, h1, hstop, hfirst, hcnt, hbuf⟩ := collectN_trace sched s hf
  exact ⟨n, l, s1, hN, rxLoop_of_rxLoopN sched _ _ _ _ _ _ _ hN, h1, hstop, hfirst, hcnt, hbuf⟩

/-- Witness of C18: the partial line `FR` received in the power-on state. -/
theorem collect_terminates_witness :
    ∃ n l s1, collectN partialFR { Timer1_Init with Flag_2 := 1, UART_RX_Data := 70 }
        = .ok (n, l, s1)
      ∧ collect partialFR { Timer1_Init with Flag_2 := 1, UART_RX_Data := 70 } = .ok (l, s1)
      ∧ 1 ≤ n
      ∧ (charStop partialFR 70 (n - 1) ∨ idleStop partialFR 70 (n - 1))
      ∧ (∀ j, j < n - 1 → ¬ charStop partialFR 70 j ∧ ¬ idleStop partialFR 70 j)
      ∧ l.Counter = (received partialFR 70 n).length
      ∧ s1.UART_Rx = received partialFR 70 n
          ++ List.replicate (50 - (received partialFR 70 n).length) 0 :=
  collect_terminates partialFR { Timer1_Init with Flag_2 := 1, UART_RX_Data := 70 } rfl

/-! ## C8: the echo of `UART0RX`, in terms of the bytes that arrive -/

end PWMGen
